import Mathlib

/-!
# TinCanAlley: the round engine and the statistics of `tinCanShooting.cpp`

A shallow embedding of the sketch's state-carrying code:

* the global `target[LCD_ROWS][LCD_COLUMNS]` is a function from (row, column) to the cell value;
  the grid is the part with `row < rows` and `col < cols`, the two sizes being parameters
  (`LCD_ROWS`, `LCD_COLUMNS` are build-time constants, 4 × 20 or 2 × 16);
* `random(0, LCD_ROWS)`, `random(0, LCD_COLUMNS)` are replaced by a list of samples that the
  loop reads from left to right; a loop that needs a sample when the list is empty yields no
  result, and theorems about completed rounds state the samples that suffice;
* the `int` locals `hits` and `shots` are 16-bit two's-complement integers, as on the Arduino
  Uno R3 that the file header names: `Locals`, `loopBody` and `whileLoop` are the loop on these
  values, an increment past `INT_MAX = 32767` going on at `INT_MIN = -32768`;
* `Round`, `shoot` and `roundLoop` are the same loop on the numbers of increments performed (how
  many cans were hit, how many shots were taken); `held` gives the `int` values that belong to
  the counts, and `whileLoop_held` shows that the two loops take the same steps as long as the
  number of hits fits an `int`;
* the `static uint16_t` accumulators are natural numbers reduced modulo 65536 at every update;
* `totalShots / totalRounds` with divisor 0 is a fault;
* LCD cursor moves, glyph prints and delays change none of this state and are left out; what
  is printed after a round is kept as a `Report`.
-/

namespace TinCanAlley

/-! ### the grid (lines 43, 133–144) -/

/-- The array `target`, indexed by row and column. -/
abbrev Grid := Nat → Nat → Nat

/-- Assignment `target[row][col] = v`. -/
def setCell (t : Grid) (row col v : Nat) : Grid :=
  fun i j => if i = row ∧ j = col then v else t i j

/-- Inner loop of `placeTinCans`: `for j < cols` set `target[i][j] = 1`. -/
def placeRow (cols i : Nat) (t : Grid) : Grid :=
  (List.range cols).foldl (fun g j => setCell g i j 1) t

/-- Outer loop of `placeTinCans`: `for i < rows` run the inner loop on row `i`. -/
def placeTinCans (rows cols : Nat) (t : Grid) : Grid :=
  (List.range rows).foldl (fun g i => placeRow cols i g) t

/-! ### one round (lines 158–177) -/

/-- The round in counts: the grid, the number of cans hit and the number of shots taken so far
in the round, that is, how often `hits++` and `shots++` have run. The `int` locals themselves
are in `Locals`. -/
structure Round where
  target : Grid
  hits : Nat
  shots : Nat

/-- Effect of the loop body on the counts for the sample `(row, col)`: one more shot, and if
the cell holds 1, one more hit and the cell becomes 0. The `int` increments are in `loopBody`. -/
def shoot (s : Round) (row col : Nat) : Round :=
  if s.target row col = 1 then
    { target := setCell s.target row col 0, hits := s.hits + 1, shots := s.shots + 1 }
  else
    { s with shots := s.shots + 1 }

/-- The loop `while (hits < LCD_COLUMNS * LCD_ROWS)` on the counts: returns the state at exit
together with the samples not read, or nothing when the samples end while the condition still
holds. The loop on the `int` locals is `whileLoop`. -/
def roundLoop (rows cols : Nat) : Round → List (Nat × Nat) → Option (Round × List (Nat × Nat))
  | s, [] => if s.hits < cols * rows then none else some (s, [])
  | s, p :: rest =>
    if s.hits < cols * rows then roundLoop rows cols (shoot s p.1 p.2) rest
    else some (s, p :: rest)

/-- Start of a round in counts: no hit, no shot, `placeTinCans` applied to whatever `target` held. -/
def freshRound (rows cols : Nat) (t : Grid) : Round := ⟨placeTinCans rows cols t, 0, 0⟩

/-- The loop body applied to a list of samples, ignoring the loop condition. -/
def volley (s : Round) (l : List (Nat × Nat)) : Round :=
  l.foldl (fun r p => shoot r p.1 p.2) s

/-- Coordinates of the grid. -/
def cells (rows cols : Nat) : Finset (Nat × Nat) := Finset.range rows ×ˢ Finset.range cols

/-- Number of grid cells holding 1 (cans standing). -/
def aliveCount (rows cols : Nat) (t : Grid) : Nat :=
  ((cells rows cols).filter (fun p => t p.1 p.2 = 1)).card

/-- Number of grid cells holding 0 (cans down). -/
def deadCount (rows cols : Nat) (t : Grid) : Nat :=
  ((cells rows cols).filter (fun p => t p.1 p.2 = 0)).card

/-- Every coordinate of the grid occurs in `l`. -/
def covers (rows cols : Nat) (l : List (Nat × Nat)) : Prop :=
  ∀ r < rows, ∀ c < cols, (r, c) ∈ l

instance (rows cols : Nat) (l : List (Nat × Nat)) : Decidable (covers rows cols l) := by
  unfold covers; infer_instance

/-- The invariant `hits + alive = rows * cols` that ties the counter to the grid. -/
def Tied (rows cols : Nat) (s : Round) : Prop :=
  s.hits + aliveCount rows cols s.target = rows * cols

/-! ### the round engine as the specification words it (used for the refinement claim) -/

/-- Specification `reset()`: every cell of the grid becomes alive. -/
def specReset (rows cols : Nat) (g : Grid) : Grid :=
  fun i j => if i < rows ∧ j < cols then 1 else g i j

/-- Specification `hit(row, col)`: an alive cell becomes dead, a dead cell is left alone. -/
def specHit (g : Grid) (row col : Nat) : Grid :=
  if g row col = 1 then setCell g row col 0 else g

/-- Specification `allDead()`: zero alive cells remain. -/
def allDead (rows cols : Nat) (g : Grid) : Bool :=
  decide (aliveCount rows cols g = 0)

/-- The specified loop, terminating on `allDead()`: state is the grid and the shot counter. -/
def specLoop (rows cols : Nat) :
    Grid → Nat → List (Nat × Nat) → Option (Grid × Nat × List (Nat × Nat))
  | g, n, [] => if allDead rows cols g then some (g, n, []) else none
  | g, n, p :: rest =>
    if allDead rows cols g then some (g, n, p :: rest)
    else specLoop rows cols (specHit g p.1 p.2) (n + 1) rest

/-- The specified state machine of section 4.3 while InProgress: sample, count the shot,
apply `hit`, and become Complete when `allDead()` holds. -/
def specMachine (rows cols : Nat) :
    Grid → Nat → List (Nat × Nat) → Option (Grid × Nat × List (Nat × Nat))
  | _, _, [] => none
  | g, n, p :: rest =>
    if allDead rows cols (specHit g p.1 p.2) then some (specHit g p.1 p.2, n + 1, rest)
    else specMachine rows cols (specHit g p.1 p.2) (n + 1) rest

/-- What the code's loop hands on: grid, shot counter, unread samples. -/
def observe (r : Option (Round × List (Nat × Nat))) : Option (Grid × Nat × List (Nat × Nat)) :=
  r.map (fun x => (x.1.target, x.1.shots, x.2))

/-! ### statistics and the session (lines 150–193, `loop`) -/

/-- Constant `LCD_ROWS` of tinCanShooting.h. -/
def LCD_ROWS : Nat := 4

/-- Constant `LCD_COLUMNS` of tinCanShooting.h. -/
def LCD_COLUMNS : Nat := 20

/-- Constant `NBR_OF_ROUNDS` of tinCanShooting.h. -/
def NBR_OF_ROUNDS : Int := 10

/-- Number of values of a `uint16_t`. -/
def UINT16_RANGE : Nat := 65536

/-- The numbers printed after a round: `shots`, `totalRounds`, `totalShots` and the quotient
`totalShots / totalRounds`. -/
structure Report where
  shots : Nat
  totalRounds : Nat
  totalShots : Nat
  mean : Nat
  deriving DecidableEq

/-- The state that outlives a round: the global `target`, the two `static uint16_t`
accumulators of `shootTinCans`, and what has been printed so far. -/
structure Session where
  target : Grid
  totalShots : Nat
  totalRounds : Nat
  serial : List Report

/-- Ways a run of the model ends without a result: the finite sample list is used up while a
round is still in progress, or `totalShots / totalRounds` is evaluated with divisor 0. -/
inductive Fault where
  | outOfSamples
  | divisionByZero
  deriving DecidableEq

/-- State at power-up: zero-initialised globals and statics, nothing printed. -/
def boot : Session := ⟨fun _ _ => 0, 0, 0, []⟩

/-- One pass through the body of the `for` loop of `shootTinCans`. -/
def roundBody (rows cols : Nat) (s : Session) (samples : List (Nat × Nat)) :
    Except Fault (Session × List (Nat × Nat)) :=
  match roundLoop rows cols (freshRound rows cols s.target) samples with
  | none => .error .outOfSamples
  | some (r, rest) =>
    let totalShots := (s.totalShots + r.shots) % UINT16_RANGE
    let totalRounds := (s.totalRounds + 1) % UINT16_RANGE
    if totalRounds = 0 then .error .divisionByZero
    else .ok ({ target := r.target, totalShots := totalShots, totalRounds := totalRounds,
                serial := s.serial ++ [⟨r.shots, totalRounds, totalShots,
                  totalShots / totalRounds⟩] }, rest)

/-- The `for (int i = 0; i < rounds; i++)` loop, `n` passes. -/
def forRounds (rows cols : Nat) :
    Nat → Session → List (Nat × Nat) → Except Fault (Session × List (Nat × Nat))
  | 0, s, samples => .ok (s, samples)
  | n + 1, s, samples =>
    match roundBody rows cols s samples with
    | .error e => .error e
    | .ok (s', rest) => forRounds rows cols n s' rest

/-- Function `shootTinCans(rounds)`: a non-positive `rounds` runs no pass. -/
def shootTinCans (rows cols : Nat) (rounds : Int) (s : Session) (samples : List (Nat × Nat)) :
    Except Fault (Session × List (Nat × Nat)) :=
  forRounds rows cols rounds.toNat s samples

/-- Function `loop()`: `shootTinCans(NBR_OF_ROUNDS)`, then `askAgain()`, which waits for the
button and changes no state. -/
def loop (rows cols : Nat) (s : Session) (samples : List (Nat × Nat)) :
    Except Fault (Session × List (Nat × Nat)) :=
  shootTinCans rows cols NBR_OF_ROUNDS s samples

/-- The sketch after `setup()`: `n` passes of `loop()`. -/
def sketch (rows cols : Nat) :
    Nat → Session → List (Nat × Nat) → Except Fault (Session × List (Nat × Nat))
  | 0, s, samples => .ok (s, samples)
  | n + 1, s, samples =>
    match loop rows cols s samples with
    | .error e => .error e
    | .ok (s', rest) => sketch rows cols n s' rest

/-- Row by row, every coordinate of the grid once. -/
def sweep (rows cols : Nat) : List (Nat × Nat) :=
  List.product (List.range rows) (List.range cols)

/-- The list `l` repeated `n` times. -/
def cycle (n : Nat) (l : List (Nat × Nat)) : List (Nat × Nat) :=
  match n with
  | 0 => []
  | k + 1 => l ++ cycle k l

/-! ### uniform sampling: averaging the loop over all equally likely sample sequences -/

/-- Every sequence of `T` in-bounds samples, each once. Under the sampler's contract (uniform,
independent) each of them has the same probability `1 / (rows * cols) ^ T`. -/
def shotSeqs (rows cols : Nat) : Nat → List (List (Nat × Nat))
  | 0 => [[]]
  | T + 1 => (sweep rows cols).flatMap (fun p => (shotSeqs rows cols T).map (fun l => p :: l))

/-- Value of `shots` when the loop, started in state `s`, has exited or has used up the
samples `l`, whichever comes first. -/
def shotsWithin (rows cols : Nat) (s : Round) (l : List (Nat × Nat)) : Nat :=
  match roundLoop rows cols s l with
  | some (r, _) => r.shots
  | none => s.shots + l.length

/-- Mean of `shotsWithin` over all sample sequences of length `T`: the expected number of
shots taken within the first `T` samples. -/
def meanShots (rows cols : Nat) (T : Nat) (s : Round) : ℚ :=
  ((shotSeqs rows cols T).map (fun l => (shotsWithin rows cols s l : ℚ))).sum
    / ((rows * cols : Nat) : ℚ) ^ T

/-- Closed recurrence for the mean number of further shots within `T` samples when `k` of `n`
cans stand: none when no sample or no can is left, otherwise one shot, which fells a can with
probability `k / n`. Shown equal to `meanShots` minus the shots already taken in `meanShots_eq`. -/
def withinE (n : Nat) : Nat → Nat → ℚ
  | 0, _ => 0
  | _ + 1, 0 => 0
  | T + 1, k + 1 =>
    1 + ((k + 1 : ℚ) / n) * withinE n T k + (((n : ℚ) - (k + 1)) / n) * withinE n T (k + 1)


/-! ### the round with its `int` counters as the Arduino Uno holds them -/

/-- Largest value of an `int` on the Arduino Uno R3 named in the file header (16 bits). -/
def INT_MAX : Int := 32767

/-- Smallest value of an `int` on the Arduino Uno R3 (16 bits). -/
def INT_MIN : Int := -32768

/-- Value that a 16-bit two's-complement `int` holds when the result of an operation is `x`:
`x` itself inside `INT_MIN .. INT_MAX`, and `x` reduced modulo 65536 into that range outside
(C++ leaves the overflow undefined; the 16-bit increment of the AVR wraps). -/
def toInt16 (x : Int) : Int := (x + 32768) % 65536 - 32768

/-- The `while` loop's state in the machine: the grid and the `int` locals `hits`, `shots`. -/
structure Locals where
  target : Grid
  hits : Int
  shots : Int

/-- Lines 164–176 for the sample `(row, col)`: `shots++`; if the cell holds 1, `hits++` and the
cell becomes 0. Both increments are 16-bit `int` increments. -/
def loopBody (s : Locals) (row col : Nat) : Locals :=
  if s.target row col = 1 then
    { target := setCell s.target row col 0, hits := toInt16 (s.hits + 1),
      shots := toInt16 (s.shots + 1) }
  else
    { s with shots := toInt16 (s.shots + 1) }

/-- Lines 162–177: `while (hits < (LCD_COLUMNS * LCD_ROWS))` on the `int` locals, reading the
samples from left to right; the bound is the build-time constant. Returns the state at exit and
the samples not read, or nothing when the samples end while the condition still holds. -/
def whileLoop (rows cols : Nat) : Locals → List (Nat × Nat) → Option (Locals × List (Nat × Nat))
  | s, [] => if s.hits < ((cols * rows : Nat) : Int) then none else some (s, [])
  | s, p :: rest =>
    if s.hits < ((cols * rows : Nat) : Int) then whileLoop rows cols (loopBody s p.1 p.2) rest
    else some (s, p :: rest)

/-- Lines 158–160: `int hits = 0; int shots = 0; placeTinCans('x');`. -/
def roundStart (rows cols : Nat) (t : Grid) : Locals := ⟨placeTinCans rows cols t, 0, 0⟩

/-- The loop body applied to a list of samples, ignoring the loop condition. -/
def fire (s : Locals) (l : List (Nat × Nat)) : Locals :=
  l.foldl (fun r p => loopBody r p.1 p.2) s

/-- What the machine holds when the two increments have run `s.hits` and `s.shots` times. -/
def held (s : Round) : Locals := ⟨s.target, toInt16 s.hits, toInt16 s.shots⟩

/-- What the machine's loop hands on: grid, value of `shots`, unread samples. -/
def observeLocals (r : Option (Locals × List (Nat × Nat))) :
    Option (Grid × Int × List (Nat × Nat)) :=
  r.map (fun x => (x.1.target, x.1.shots, x.2))

/-- The specified loop's result with its shot count read as an integer. -/
def specObserved (r : Option (Grid × Nat × List (Nat × Nat))) :
    Option (Grid × Int × List (Nat × Nat)) :=
  r.map (fun x => (x.1, (x.2.1 : Int), x.2.2))

/-- A round of 32768 shots on the 4 × 20 grid: 32688 shots at (0, 0), then one sweep. -/
def longRound : List (Nat × Nat) := List.replicate 32688 (0, 0) ++ sweep 4 20

/-! ## Lemmas -/

/-! ### grid lemmas -/

theorem placeRow_apply (cols i : Nat) (t : Grid) (a b : Nat) :
    placeRow cols i t a b = if a = i ∧ b < cols then 1 else t a b := by
  unfold placeRow
  induction cols with
  | zero => simp
  | succ n ih =>
    rw [List.range_succ, List.foldl_append]
    simp only [List.foldl_cons, List.foldl_nil, setCell, ih]
    split_ifs <;> first | rfl | omega

theorem placeTinCans_apply (rows cols : Nat) (t : Grid) (a b : Nat) :
    placeTinCans rows cols t a b = if a < rows ∧ b < cols then 1 else t a b := by
  unfold placeTinCans
  induction rows with
  | zero => simp
  | succ n ih =>
    rw [List.range_succ, List.foldl_append]
    simp only [List.foldl_cons, List.foldl_nil, placeRow_apply, ih]
    split_ifs <;> first | rfl | omega

theorem volley_nil (s : Round) : volley s [] = s := rfl

theorem volley_cons (s : Round) (p : Nat × Nat) (l : List (Nat × Nat)) :
    volley s (p :: l) = volley (shoot s p.1 p.2) l := rfl

theorem volley_append (s : Round) (l₁ l₂ : List (Nat × Nat)) :
    volley s (l₁ ++ l₂) = volley (volley s l₁) l₂ := by
  simp [volley, List.foldl_append]

theorem shoot_shots (s : Round) (r c : Nat) : (shoot s r c).shots = s.shots + 1 := by
  unfold shoot; split <;> rfl

theorem shoot_target (s : Round) (r c i j : Nat) :
    (shoot s r c).target i j = if i = r ∧ j = c ∧ s.target r c = 1 then 0 else s.target i j := by
  unfold shoot
  by_cases h : s.target r c = 1
  · simp only [h, if_true, setCell]
    by_cases h2 : i = r ∧ j = c
    · simp [h2]
    · have h3 : ¬ (i = r ∧ j = c ∧ True) := fun h => h2 ⟨h.1, h.2.1⟩
      simp only [h2, h3, if_false]
  · simp [h]

theorem volley_shots (s : Round) (l : List (Nat × Nat)) :
    (volley s l).shots = s.shots + l.length := by
  induction l generalizing s with
  | nil => rfl
  | cons p l ih => rw [volley_cons, ih, shoot_shots, List.length_cons]; omega

theorem volley_target (s : Round) (l : List (Nat × Nat)) (i j : Nat) :
    (volley s l).target i j = if (i, j) ∈ l ∧ s.target i j = 1 then 0 else s.target i j := by
  induction l generalizing s with
  | nil => simp [volley_nil]
  | cons p l ih =>
    rw [volley_cons, ih, shoot_target]
    obtain ⟨r, c⟩ := p
    simp only [List.mem_cons, Prod.mk.injEq]
    by_cases h1 : i = r ∧ j = c
    · obtain ⟨rfl, rfl⟩ := h1
      by_cases h2 : s.target i j = 1 <;> simp [h2]
    · have h1' : ¬ (i = r ∧ j = c ∧ s.target r c = 1) := fun h => h1 ⟨h.1, h.2.1⟩
      simp [h1, h1']


/-! ### the loop as a search for the first state that fails the loop condition -/

theorem roundLoop_of_stop (rows cols : Nat) :
    ∀ (samples : List (Nat × Nat)) (s : Round) (n : Nat), n ≤ samples.length →
      (∀ m < n, (volley s (samples.take m)).hits < cols * rows) →
      ¬ (volley s (samples.take n)).hits < cols * rows →
      roundLoop rows cols s samples = some (volley s (samples.take n), samples.drop n) := by
  intro samples
  induction samples with
  | nil =>
    intro s n hn _ hstop
    have : n = 0 := by simpa using hn
    subst this
    simp only [List.take_nil, volley_nil] at hstop
    simp [roundLoop, hstop, volley_nil]
  | cons p rest ih =>
    intro s n hn hlt hstop
    cases n with
    | zero =>
      simp only [List.take_zero, volley_nil] at hstop
      simp [roundLoop, hstop, volley_nil]
    | succ k =>
      have h0 : s.hits < cols * rows := by simpa [volley_nil] using hlt 0 (Nat.succ_pos k)
      have hk : k ≤ rest.length := by simpa using hn
      rw [roundLoop, if_pos h0, ih (shoot s p.1 p.2) k hk]
      · simp [volley_cons]
      · intro m hm
        have := hlt (m + 1) (by omega)
        simpa [volley_cons] using this
      · simpa [volley_cons] using hstop

theorem roundLoop_some (rows cols : Nat) :
    ∀ (samples : List (Nat × Nat)) (s s' : Round) (rest : List (Nat × Nat)),
      roundLoop rows cols s samples = some (s', rest) →
      ∃ n, n ≤ samples.length ∧ s' = volley s (samples.take n) ∧ rest = samples.drop n ∧
        (∀ m < n, (volley s (samples.take m)).hits < cols * rows) ∧
        ¬ s'.hits < cols * rows := by
  intro samples
  induction samples with
  | nil =>
    intro s s' rest h
    by_cases h0 : s.hits < cols * rows
    · simp [roundLoop, h0] at h
    · simp only [roundLoop, h0, if_false, Option.some.injEq, Prod.mk.injEq] at h
      obtain ⟨rfl, rfl⟩ := h
      exact ⟨0, by simp, by simp [volley_nil], by simp, by simp, h0⟩
  | cons p tl ih =>
    intro s s' rest h
    by_cases h0 : s.hits < cols * rows
    · rw [roundLoop, if_pos h0] at h
      obtain ⟨n, hn, hs, hr, hlt, hstop⟩ := ih _ _ _ h
      refine ⟨n + 1, by simpa using hn, by simpa [volley_cons] using hs, by simpa using hr, ?_, hstop⟩
      intro m hm
      cases m with
      | zero => simpa [volley_nil] using h0
      | succ j =>
        have := hlt j (by omega)
        simpa [volley_cons] using this
    · simp only [roundLoop, h0, if_false, Option.some.injEq, Prod.mk.injEq] at h
      obtain ⟨rfl, rfl⟩ := h
      exact ⟨0, by simp, by simp [volley_nil], by simp, by simp, h0⟩

/-! ### counting cans -/

theorem mem_cells {rows cols : Nat} {p : Nat × Nat} :
    p ∈ cells rows cols ↔ p.1 < rows ∧ p.2 < cols := by
  simp [cells]

theorem card_cells (rows cols : Nat) : (cells rows cols).card = rows * cols := by
  simp [cells]

theorem aliveCount_setCell_zero (rows cols : Nat) (t : Grid) (r c : Nat)
    (hr : r < rows) (hc : c < cols) (h : t r c = 1) :
    aliveCount rows cols (setCell t r c 0) + 1 = aliveCount rows cols t := by
  unfold aliveCount
  have hmem : (r, c) ∈ (cells rows cols).filter (fun p => t p.1 p.2 = 1) := by
    simp [mem_cells, hr, hc, h]
  have heq : (cells rows cols).filter (fun p => setCell t r c 0 p.1 p.2 = 1)
      = ((cells rows cols).filter (fun p => t p.1 p.2 = 1)).erase (r, c) := by
    ext ⟨i, j⟩
    simp only [Finset.mem_filter, Finset.mem_erase, setCell, ne_eq, Prod.mk.injEq]
    by_cases hij : i = r ∧ j = c
    · simp [hij]
    · simp [hij]
  rw [heq, Finset.card_erase_of_mem hmem]
  have := Finset.card_pos.mpr ⟨_, hmem⟩
  omega

theorem shoot_hits_alive (rows cols : Nat) (s : Round) (r c : Nat) (hr : r < rows) (hc : c < cols) :
    (shoot s r c).hits + aliveCount rows cols (shoot s r c).target
      = s.hits + aliveCount rows cols s.target := by
  unfold shoot
  by_cases h : s.target r c = 1
  · simp only [h, if_true]
    have := aliveCount_setCell_zero rows cols s.target r c hr hc h
    omega
  · simp [h]

theorem volley_hits_alive (rows cols : Nat) (l : List (Nat × Nat)) :
    ∀ (s : Round), (∀ p ∈ l, p.1 < rows ∧ p.2 < cols) →
      (volley s l).hits + aliveCount rows cols (volley s l).target
        = s.hits + aliveCount rows cols s.target := by
  induction l with
  | nil => intro s _; rfl
  | cons p l ih =>
    intro s hin
    rw [volley_cons, ih _ (fun q hq => hin q (List.mem_cons_of_mem _ hq)),
      shoot_hits_alive rows cols s p.1 p.2 (hin p (List.mem_cons_self _ _)).1
        (hin p (List.mem_cons_self _ _)).2]

theorem aliveCount_place (rows cols : Nat) (t : Grid) :
    aliveCount rows cols (placeTinCans rows cols t) = rows * cols := by
  unfold aliveCount
  rw [Finset.filter_true_of_mem, card_cells]
  intro p hp
  rw [placeTinCans_apply, if_pos (mem_cells.mp hp)]

theorem aliveCount_eq_zero_iff (rows cols : Nat) (t : Grid) :
    aliveCount rows cols t = 0 ↔ ∀ r < rows, ∀ c < cols, t r c ≠ 1 := by
  unfold aliveCount
  rw [Finset.card_eq_zero, Finset.filter_eq_empty_iff]
  constructor
  · intro h r hr c hc
    exact h ((@mem_cells rows cols (r, c)).mpr ⟨hr, hc⟩)
  · intro h p hp
    exact h p.1 (mem_cells.mp hp).1 p.2 (mem_cells.mp hp).2

theorem fresh_volley_target (rows cols : Nat) (t : Grid) (l : List (Nat × Nat)) (r c : Nat)
    (hr : r < rows) (hc : c < cols) :
    (volley (freshRound rows cols t) l).target r c = if (r, c) ∈ l then 0 else 1 := by
  rw [volley_target]
  simp [freshRound, placeTinCans_apply, hr, hc]

theorem fresh_volley_hits (rows cols : Nat) (t : Grid) (l : List (Nat × Nat))
    (hin : ∀ p ∈ l, p.1 < rows ∧ p.2 < cols) :
    (volley (freshRound rows cols t) l).hits
      + aliveCount rows cols (volley (freshRound rows cols t) l).target = rows * cols := by
  rw [volley_hits_alive rows cols l _ hin]
  simp [freshRound, aliveCount_place]

theorem fresh_alive_zero_iff_covers (rows cols : Nat) (t : Grid) (l : List (Nat × Nat)) :
    aliveCount rows cols (volley (freshRound rows cols t) l).target = 0 ↔ covers rows cols l := by
  rw [aliveCount_eq_zero_iff]
  unfold covers
  constructor
  · intro h r hr c hc
    have := h r hr c hc
    rw [fresh_volley_target rows cols t l r c hr hc] at this
    by_contra hn
    simp [hn] at this
  · intro h r hr c hc
    rw [fresh_volley_target rows cols t l r c hr hc, if_pos (h r hr c hc)]
    decide

theorem fresh_cond_iff (rows cols : Nat) (t : Grid) (l : List (Nat × Nat))
    (hin : ∀ p ∈ l, p.1 < rows ∧ p.2 < cols) :
    (volley (freshRound rows cols t) l).hits < cols * rows ↔ ¬ covers rows cols l := by
  rw [← fresh_alive_zero_iff_covers rows cols t l]
  have := fresh_volley_hits rows cols t l hin
  rw [Nat.mul_comm cols rows]
  omega

theorem volley_hits_le (l : List (Nat × Nat)) :
    ∀ s : Round, (volley s l).hits ≤ s.hits + l.length := by
  induction l with
  | nil => intro s; simp [volley_nil]
  | cons p l ih =>
    intro s
    rw [volley_cons]
    have h1 := ih (shoot s p.1 p.2)
    have h2 : (shoot s p.1 p.2).hits ≤ s.hits + 1 := by
      unfold shoot; split <;> simp
    simp only [List.length_cons]
    omega

theorem covers_length_ge (rows cols : Nat) (l : List (Nat × Nat)) (h : covers rows cols l) :
    rows * cols ≤ l.length := by
  have hsub : cells rows cols ⊆ l.toFinset := by
    intro p hp
    rw [List.mem_toFinset]
    exact h p.1 (mem_cells.mp hp).1 p.2 (mem_cells.mp hp).2
  calc rows * cols = (cells rows cols).card := (card_cells rows cols).symm
    _ ≤ l.toFinset.card := Finset.card_le_card hsub
    _ ≤ l.length := List.toFinset_card_le l

theorem covers_of_nodup (rows cols : Nat) (l : List (Nat × Nat)) (hnd : l.Nodup)
    (hin : ∀ p ∈ l, p.1 < rows ∧ p.2 < cols) (hlen : l.length = rows * cols) :
    covers rows cols l := by
  have hsub : l.toFinset ⊆ cells rows cols := by
    intro p hp
    exact mem_cells.mpr (hin p (List.mem_toFinset.mp hp))
  have hcard : (cells rows cols).card ≤ l.toFinset.card := by
    rw [List.toFinset_card_of_nodup hnd, card_cells, hlen]
  have heq := Finset.eq_of_subset_of_card_le hsub hcard
  intro r hr c hc
  have : (r, c) ∈ l.toFinset := by
    rw [heq]; exact (@mem_cells rows cols (r, c)).mpr ⟨hr, hc⟩
  exact List.mem_toFinset.mp this

theorem mem_take_bounds {rows cols : Nat} {l : List (Nat × Nat)}
    (hin : ∀ p ∈ l, p.1 < rows ∧ p.2 < cols) (m : Nat) :
    ∀ p ∈ l.take m, p.1 < rows ∧ p.2 < cols :=
  fun p hp => hin p (List.mem_of_mem_take hp)

theorem roundLoop_fresh_of_first_cover (rows cols : Nat) (t : Grid) (l : List (Nat × Nat))
    (n : Nat) (hn : n ≤ l.length) (hin : ∀ p ∈ l.take n, p.1 < rows ∧ p.2 < cols)
    (hcov : covers rows cols (l.take n)) (hmin : ∀ m < n, ¬ covers rows cols (l.take m)) :
    roundLoop rows cols (freshRound rows cols t) l
      = some (volley (freshRound rows cols t) (l.take n), l.drop n) := by
  apply roundLoop_of_stop rows cols l _ n hn
  · intro m hm
    have hpre : ∀ p ∈ l.take m, p.1 < rows ∧ p.2 < cols := by
      intro p hp
      have : l.take m = (l.take n).take m := by
        rw [List.take_take, Nat.min_eq_left (Nat.le_of_lt hm)]
      rw [this] at hp
      exact hin p (List.mem_of_mem_take hp)
    exact (fresh_cond_iff rows cols t _ hpre).mpr (hmin m hm)
  · rw [fresh_cond_iff rows cols t _ hin]
    exact not_not.mpr hcov

/-! ### refinement lemmas -/

theorem specReset_eq_place (rows cols : Nat) (t : Grid) :
    specReset rows cols t = placeTinCans rows cols t := by
  funext i j
  rw [placeTinCans_apply]; rfl

theorem shoot_target_eq_specHit (s : Round) (r c : Nat) :
    (shoot s r c).target = specHit s.target r c := by
  unfold shoot specHit
  split <;> rfl

theorem allDead_iff (rows cols : Nat) (g : Grid) :
    allDead rows cols g = true ↔ aliveCount rows cols g = 0 := by
  simp [allDead]

theorem tied_shoot {rows cols : Nat} {s : Round} (h : Tied rows cols s) (r c : Nat)
    (hr : r < rows) (hc : c < cols) : Tied rows cols (shoot s r c) := by
  unfold Tied at *
  rw [shoot_hits_alive rows cols s r c hr hc]; exact h

theorem tied_fresh (rows cols : Nat) (t : Grid) : Tied rows cols (freshRound rows cols t) := by
  simp [Tied, freshRound, aliveCount_place]

theorem tied_cond_iff {rows cols : Nat} {s : Round} (h : Tied rows cols s) :
    ¬ s.hits < cols * rows ↔ allDead rows cols s.target = true := by
  rw [allDead_iff, Nat.mul_comm cols rows]
  unfold Tied at h
  omega

theorem roundLoop_refines_specLoop (rows cols : Nat) :
    ∀ (l : List (Nat × Nat)) (s : Round), Tied rows cols s →
      (∀ p ∈ l, p.1 < rows ∧ p.2 < cols) →
      observe (roundLoop rows cols s l) = specLoop rows cols s.target s.shots l := by
  intro l
  induction l with
  | nil =>
    intro s hs _
    by_cases h0 : s.hits < cols * rows
    · have h1 : ¬ allDead rows cols s.target = true := fun h => (tied_cond_iff hs).mpr h h0
      simp [roundLoop, specLoop, h0, h1, observe]
    · have h1 : allDead rows cols s.target = true := (tied_cond_iff hs).mp h0
      simp [roundLoop, specLoop, h0, h1, observe]
  | cons p l ih =>
    intro s hs hin
    have hp := hin p (List.mem_cons_self _ _)
    by_cases h0 : s.hits < cols * rows
    · have h1 : ¬ allDead rows cols s.target = true := fun h => (tied_cond_iff hs).mpr h h0
      rw [roundLoop, if_pos h0, specLoop, if_neg h1,
        ih _ (tied_shoot hs p.1 p.2 hp.1 hp.2) (fun q hq => hin q (List.mem_cons_of_mem _ hq)),
        shoot_target_eq_specHit, shoot_shots]
    · have h1 : allDead rows cols s.target = true := (tied_cond_iff hs).mp h0
      simp [roundLoop, specLoop, h0, h1, observe]

theorem roundLoop_refines_specMachine (rows cols : Nat) :
    ∀ (l : List (Nat × Nat)) (s : Round), Tied rows cols s → s.hits < cols * rows →
      (∀ p ∈ l, p.1 < rows ∧ p.2 < cols) →
      observe (roundLoop rows cols s l) = specMachine rows cols s.target s.shots l := by
  intro l
  induction l with
  | nil =>
    intro s _ h0 _
    simp [roundLoop, specMachine, h0, observe]
  | cons p l ih =>
    intro s hs h0 hin
    have hp := hin p (List.mem_cons_self _ _)
    have hs' := tied_shoot hs p.1 p.2 hp.1 hp.2
    rw [roundLoop, if_pos h0, specMachine, ← shoot_target_eq_specHit]
    by_cases h1 : (shoot s p.1 p.2).hits < cols * rows
    · have h2 : ¬ allDead rows cols (shoot s p.1 p.2).target = true :=
        fun h => (tied_cond_iff hs').mpr h h1
      rw [if_neg h2, ih _ hs' h1 (fun q hq => hin q (List.mem_cons_of_mem _ hq)), shoot_shots]
    · have h2 : allDead rows cols (shoot s p.1 p.2).target = true := (tied_cond_iff hs').mp h1
      rw [if_pos h2]
      cases l with
      | nil => simp [roundLoop, h1, observe, shoot_shots]
      | cons q l => simp [roundLoop, h1, observe, shoot_shots]

theorem tied_volley {rows cols : Nat} (l : List (Nat × Nat)) :
    ∀ {s : Round}, Tied rows cols s → (∀ p ∈ l, p.1 < rows ∧ p.2 < cols) →
      Tied rows cols (volley s l) := by
  intro s hs hin
  unfold Tied at *
  rw [volley_hits_alive rows cols l s hin]; exact hs

theorem dead_add_alive_fresh (rows cols : Nat) (t : Grid) (l : List (Nat × Nat)) :
    deadCount rows cols (volley (freshRound rows cols t) l).target
      + aliveCount rows cols (volley (freshRound rows cols t) l).target = rows * cols := by
  have hsplit : ((cells rows cols).filter
        (fun p => (volley (freshRound rows cols t) l).target p.1 p.2 = 0)).card
      + ((cells rows cols).filter
        (fun p => ¬ (volley (freshRound rows cols t) l).target p.1 p.2 = 0)).card
      = (cells rows cols).card :=
    Finset.filter_card_add_filter_neg_card_eq_card _
  have hneg : (cells rows cols).filter
        (fun p => ¬ (volley (freshRound rows cols t) l).target p.1 p.2 = 0)
      = (cells rows cols).filter
        (fun p => (volley (freshRound rows cols t) l).target p.1 p.2 = 1) := by
    apply Finset.filter_congr
    intro p hp
    have hb := mem_cells.mp hp
    rw [fresh_volley_target rows cols t l p.1 p.2 hb.1 hb.2]
    split <;> simp
  rw [hneg, card_cells] at hsplit
  exact hsplit

/-! ### sessions fed with sweeps -/

theorem sweep_nodup (rows cols : Nat) : (sweep rows cols).Nodup :=
  List.Nodup.product (List.nodup_range rows) (List.nodup_range cols)

theorem mem_sweep {rows cols : Nat} {p : Nat × Nat} :
    p ∈ sweep rows cols ↔ p.1 < rows ∧ p.2 < cols := by
  obtain ⟨a, b⟩ := p
  simp [sweep, List.mem_product]

theorem sweep_length (rows cols : Nat) : (sweep rows cols).length = rows * cols := by
  unfold sweep
  exact (List.length_product _ _).trans (by simp)

theorem roundLoop_sweep (rows cols : Nat) (t : Grid) (rest : List (Nat × Nat)) :
    roundLoop rows cols (freshRound rows cols t) (sweep rows cols ++ rest)
      = some (volley (freshRound rows cols t) (sweep rows cols), rest) := by
  have hlen := sweep_length rows cols
  have htake : (sweep rows cols ++ rest).take (rows * cols) = sweep rows cols := by
    rw [← hlen, List.take_left]
  have hdrop : (sweep rows cols ++ rest).drop (rows * cols) = rest := by
    rw [← hlen, List.drop_left]
  have hcov : covers rows cols (sweep rows cols) :=
    fun r hr c hc => (@mem_sweep rows cols (r, c)).mpr ⟨hr, hc⟩
  have h := roundLoop_fresh_of_first_cover rows cols t (sweep rows cols ++ rest) (rows * cols)
    (by rw [List.length_append, hlen]; omega)
    (by rw [htake]; exact fun p hp => mem_sweep.mp hp)
    (by rw [htake]; exact hcov)
    (by
      intro m hm hc
      have := covers_length_ge rows cols _ hc
      rw [List.length_take] at this
      omega)
  rw [h, htake, hdrop]

theorem roundBody_sweep (rows cols : Nat) (s : Session) (rest : List (Nat × Nat))
    (h : s.totalRounds + 1 < UINT16_RANGE) :
    roundBody rows cols s (sweep rows cols ++ rest)
      = .ok ({ target := (volley (freshRound rows cols s.target) (sweep rows cols)).target,
               totalShots := (s.totalShots + rows * cols) % UINT16_RANGE,
               totalRounds := s.totalRounds + 1,
               serial := s.serial ++ [⟨rows * cols, s.totalRounds + 1,
                 (s.totalShots + rows * cols) % UINT16_RANGE,
                 (s.totalShots + rows * cols) % UINT16_RANGE / (s.totalRounds + 1)⟩] }, rest) := by
  unfold roundBody
  rw [roundLoop_sweep]
  have hsh : (volley (freshRound rows cols s.target) (sweep rows cols)).shots = rows * cols := by
    rw [volley_shots, sweep_length]; simp [freshRound]
  have hmod : (s.totalRounds + 1) % UINT16_RANGE = s.totalRounds + 1 := Nat.mod_eq_of_lt h
  simp only [hsh, hmod]
  rw [if_neg (Nat.succ_ne_zero _)]

theorem roundBody_sweep_wrap (rows cols : Nat) (s : Session) (rest : List (Nat × Nat))
    (h : s.totalRounds + 1 = UINT16_RANGE) :
    roundBody rows cols s (sweep rows cols ++ rest) = .error .divisionByZero := by
  unfold roundBody
  rw [roundLoop_sweep]
  simp only [h, Nat.mod_self, if_true]

theorem forRounds_error (rows cols : Nat) (n : Nat) (s : Session) (samples : List (Nat × Nat))
    (e : Fault) (h : roundBody rows cols s samples = .error e) :
    forRounds rows cols (n + 1) s samples = .error e := by
  rw [forRounds, h]

theorem forRounds_add (rows cols : Nat) (a b : Nat) :
    ∀ (s : Session) (samples : List (Nat × Nat)),
      forRounds rows cols (a + b) s samples
        = match forRounds rows cols a s samples with
          | .error e => .error e
          | .ok (s', rest) => forRounds rows cols b s' rest := by
  induction a with
  | zero => intro s samples; simp [forRounds]
  | succ k ih =>
    intro s samples
    rw [Nat.add_right_comm, forRounds, forRounds]
    cases hb : roundBody rows cols s samples with
    | error e => rfl
    | ok x => obtain ⟨s', rest⟩ := x; exact ih s' rest

theorem sketch_eq_forRounds (rows cols : Nat) (n : Nat) :
    ∀ (s : Session) (samples : List (Nat × Nat)),
      sketch rows cols n s samples = forRounds rows cols (n * 10) s samples := by
  induction n with
  | zero => intro s samples; simp [sketch, forRounds]
  | succ k ih =>
    intro s samples
    rw [sketch, Nat.succ_mul, Nat.add_comm, forRounds_add]
    have : loop rows cols s samples = forRounds rows cols 10 s samples := rfl
    rw [this]
    cases forRounds rows cols 10 s samples with
    | error e => rfl
    | ok x => obtain ⟨s', rest⟩ := x; exact ih s' rest

theorem cycle_add (a b : Nat) (l : List (Nat × Nat)) :
    cycle (a + b) l = cycle a l ++ cycle b l := by
  induction a with
  | zero => simp [cycle]
  | succ k ih => rw [Nat.add_right_comm, cycle, cycle, ih, List.append_assoc]

/-- Running `n` rounds, each fed one sweep, from a session with room for `n` more rounds. -/
theorem forRounds_sweeps (rows cols : Nat) (n : Nat) :
    ∀ (s : Session) (rest : List (Nat × Nat)), s.totalShots < UINT16_RANGE →
      s.totalRounds + n < UINT16_RANGE →
      ∃ s', forRounds rows cols n s (cycle n (sweep rows cols) ++ rest) = .ok (s', rest) ∧
        s'.totalShots = (s.totalShots + n * (rows * cols)) % UINT16_RANGE ∧
        s'.totalRounds = s.totalRounds + n ∧
        s'.serial.map Report.shots
          = s.serial.map Report.shots ++ List.replicate n (rows * cols) ∧
        (0 < n → s'.serial.getLast? = some ⟨rows * cols, s'.totalRounds, s'.totalShots,
          s'.totalShots / s'.totalRounds⟩) := by
  induction n with
  | zero =>
    intro s rest hs _
    refine ⟨s, rfl, ?_, rfl, by simp, fun h => absurd h (Nat.lt_irrefl 0)⟩
    simp [Nat.mod_eq_of_lt hs]
  | succ k ih =>
    intro s rest hs hlt
    have hb := roundBody_sweep rows cols s (cycle k (sweep rows cols) ++ rest) (by omega)
    obtain ⟨s', hrun, hshots, hrounds, hser, hlast⟩ := ih
      { target := (volley (freshRound rows cols s.target) (sweep rows cols)).target,
        totalShots := (s.totalShots + rows * cols) % UINT16_RANGE,
        totalRounds := s.totalRounds + 1,
        serial := s.serial ++ [⟨rows * cols, s.totalRounds + 1,
          (s.totalShots + rows * cols) % UINT16_RANGE,
          (s.totalShots + rows * cols) % UINT16_RANGE / (s.totalRounds + 1)⟩] } rest
      (Nat.mod_lt _ (by decide))
      (show s.totalRounds + 1 + k < UINT16_RANGE by omega)
    simp only [] at hshots hrounds hser
    refine ⟨s', ?_, ?_, ?_, ?_, ?_⟩
    · rw [cycle, List.append_assoc, forRounds, hb]
      exact hrun
    · rw [hshots]
      simp only [Nat.mod_add_mod]
      congr 1
      rw [Nat.succ_mul]; omega
    · rw [hrounds]; omega
    · rw [hser]
      simp [List.replicate_succ]
    · intro _
      rcases Nat.eq_zero_or_pos k with hk | hk
      · subst hk
        simp only [forRounds, cycle, List.nil_append, Except.ok.injEq, Prod.mk.injEq] at hrun
        rw [← hrun.1]
        simp
      · exact hlast hk

/-! ### the expected number of shots -/

theorem shotsWithin_done (rows cols : Nat) (s : Round) (l : List (Nat × Nat))
    (h : ¬ s.hits < cols * rows) : shotsWithin rows cols s l = s.shots := by
  unfold shotsWithin
  cases l <;> simp [roundLoop, h]

theorem shotsWithin_nil (rows cols : Nat) (s : Round) : shotsWithin rows cols s [] = s.shots := by
  unfold shotsWithin
  by_cases h : s.hits < cols * rows <;> simp [roundLoop, h]

theorem shotsWithin_cons (rows cols : Nat) (s : Round) (p : Nat × Nat) (l : List (Nat × Nat))
    (h : s.hits < cols * rows) :
    shotsWithin rows cols s (p :: l) = shotsWithin rows cols (shoot s p.1 p.2) l := by
  unfold shotsWithin
  rw [roundLoop, if_pos h]
  cases roundLoop rows cols (shoot s p.1 p.2) l with
  | none => simp only [shoot_shots, List.length_cons]; omega
  | some x => rfl

theorem sum_map_flatMap {α β : Type} (l : List α) (f : α → List β) (g : β → ℚ) :
    ((l.flatMap f).map g).sum = (l.map (fun a => ((f a).map g).sum)).sum := by
  induction l with
  | nil => simp
  | cons a l ih => simp [List.flatMap_cons, ih]

theorem sweep_toFinset (rows cols : Nat) : (sweep rows cols).toFinset = cells rows cols := by
  ext p
  rw [List.mem_toFinset, mem_sweep, mem_cells]

theorem sum_sweep (rows cols : Nat) (f : Nat × Nat → ℚ) :
    ((sweep rows cols).map f).sum = ∑ p ∈ cells rows cols, f p := by
  rw [← sweep_toFinset, List.sum_toFinset f (sweep_nodup rows cols)]

theorem shotSeqs_length (rows cols T : Nat) : (shotSeqs rows cols T).length = (rows * cols) ^ T := by
  induction T with
  | zero => simp [shotSeqs]
  | succ T ih =>
    have hc : (List.length ∘ fun p : Nat × Nat => List.map (fun l => p :: l) (shotSeqs rows cols T))
        = fun _ => (rows * cols) ^ T := by
      funext p; simp [ih]
    rw [shotSeqs, List.length_flatMap, hc, List.map_const', List.sum_replicate, sweep_length,
      smul_eq_mul, pow_succ, Nat.mul_comm]

theorem aliveCount_shoot_alive (rows cols : Nat) (s : Round) (p : Nat × Nat)
    (hp : p ∈ cells rows cols) (h : s.target p.1 p.2 = 1) :
    aliveCount rows cols (shoot s p.1 p.2).target + 1 = aliveCount rows cols s.target := by
  have hb := mem_cells.mp hp
  have := aliveCount_setCell_zero rows cols s.target p.1 p.2 hb.1 hb.2 h
  simpa [shoot, h] using this

theorem aliveCount_shoot_dead (rows cols : Nat) (s : Round) (p : Nat × Nat)
    (h : ¬ s.target p.1 p.2 = 1) :
    aliveCount rows cols (shoot s p.1 p.2).target = aliveCount rows cols s.target := by
  simp [shoot, h]

theorem aliveCount_le (rows cols : Nat) (t : Grid) : aliveCount rows cols t ≤ rows * cols := by
  unfold aliveCount
  rw [← card_cells]
  exact Finset.card_filter_le _ _

/-- Summing `shotsWithin` over all sequences of length `T`, in closed form. -/
theorem sum_shotsWithin (rows cols : Nat) (T : Nat) :
    ∀ s : Round, Tied rows cols s →
      ((shotSeqs rows cols T).map (fun l => (shotsWithin rows cols s l : ℚ))).sum
        = ((rows * cols : Nat) : ℚ) ^ T
          * (s.shots + withinE (rows * cols) T (aliveCount rows cols s.target)) := by
  induction T with
  | zero =>
    intro s _
    simp [shotSeqs, shotsWithin_nil, withinE]
  | succ T ih =>
    intro s hs
    by_cases h0 : s.hits < cols * rows
    · -- at least one can stands
      have hk : 0 < aliveCount rows cols s.target := by
        unfold Tied at hs; rw [Nat.mul_comm cols rows] at h0; omega
      obtain ⟨k, hk'⟩ := Nat.exists_eq_succ_of_ne_zero (Nat.pos_iff_ne_zero.mp hk)
      have hle := aliveCount_le rows cols s.target
      have hn : ((rows * cols : Nat) : ℚ) ≠ 0 := by
        have : 0 < rows * cols := by omega
        exact_mod_cast this.ne'
      rw [shotSeqs, sum_map_flatMap, sum_sweep]
      have hterm : ∀ p ∈ cells rows cols,
          (((shotSeqs rows cols T).map (fun l => p :: l)).map
              (fun l => (shotsWithin rows cols s l : ℚ))).sum
            = ((rows * cols : Nat) : ℚ) ^ T * ((s.shots : ℚ) + 1
                + if s.target p.1 p.2 = 1 then withinE (rows * cols) T k
                  else withinE (rows * cols) T (k + 1)) := by
        intro p hp
        have hb := mem_cells.mp hp
        rw [List.map_map]
        have : ((fun l => (shotsWithin rows cols s l : ℚ)) ∘ fun l => p :: l)
            = fun l => (shotsWithin rows cols (shoot s p.1 p.2) l : ℚ) := by
          funext l
          simp [shotsWithin_cons rows cols s p l h0]
        rw [this, ih _ (tied_shoot hs p.1 p.2 hb.1 hb.2), shoot_shots]
        by_cases ha : s.target p.1 p.2 = 1
        · have := aliveCount_shoot_alive rows cols s p hp ha
          have hk2 : aliveCount rows cols (shoot s p.1 p.2).target = k := by omega
          rw [hk2, if_pos ha]; push_cast; ring
        · rw [aliveCount_shoot_dead rows cols s p ha, if_neg ha, hk']; push_cast; ring
      rw [Finset.sum_congr rfl hterm, ← Finset.mul_sum, Finset.sum_add_distrib,
        Finset.sum_const, Finset.sum_ite, Finset.sum_const, Finset.sum_const, card_cells]
      have hca : ((cells rows cols).filter (fun p => s.target p.1 p.2 = 1)).card = k + 1 := by
        exact hk'
      have hcd : ((cells rows cols).filter (fun p => ¬ s.target p.1 p.2 = 1)).card
          = rows * cols - (k + 1) := by
        have : ((cells rows cols).filter (fun p => s.target p.1 p.2 = 1)).card
            + ((cells rows cols).filter (fun p => ¬ s.target p.1 p.2 = 1)).card
            = (cells rows cols).card :=
          Finset.filter_card_add_filter_neg_card_eq_card _
        rw [card_cells, hca] at this
        omega
      rw [hca, hcd, hk', withinE]
      have hsub : ((rows * cols - (k + 1) : Nat) : ℚ) = ((rows * cols : Nat) : ℚ) - (k + 1) := by
        rw [Nat.cast_sub (by omega)]; push_cast; ring
      simp only [nsmul_eq_mul, hsub]
      generalize withinE (rows * cols) T k = w₁
      generalize withinE (rows * cols) T (k + 1) = w₂
      generalize ((rows * cols : Nat) : ℚ) = N at hn ⊢
      field_simp
      ring
    · -- the round is over
      have hk : aliveCount rows cols s.target = 0 := by
        unfold Tied at hs; rw [Nat.mul_comm cols rows] at h0; omega
      have : (fun l => (shotsWithin rows cols s l : ℚ)) = fun _ => (s.shots : ℚ) := by
        funext l
        rw [shotsWithin_done rows cols s l h0]
      rw [this, hk, withinE, List.map_const', List.sum_replicate, shotSeqs_length]
      simp

theorem harmonic_nonneg (k : Nat) : 0 ≤ harmonic k := by
  rcases Nat.eq_zero_or_pos k with h | h
  · subst h; simp
  · exact le_of_lt (harmonic_pos (Nat.pos_iff_ne_zero.mp h))

theorem harmonic_le_self (k : Nat) : harmonic k ≤ k := by
  induction k with
  | zero => simp
  | succ k ih =>
    rw [harmonic_succ]
    have h1 : ((↑(k + 1) : ℚ))⁻¹ ≤ 1 := by
      apply inv_le_one_of_one_le₀
      exact_mod_cast Nat.succ_pos k
    push_cast at h1 ⊢
    linarith

/-- How far the expectation within `T` samples is from `n * H k`, as a convex recurrence. -/
theorem withinE_gap_step (n : Nat) (hn : 0 < n) (T k : Nat) :
    (n : ℚ) * harmonic (k + 1) - withinE n (T + 1) (k + 1)
      = ((k + 1 : ℚ) / n) * ((n : ℚ) * harmonic k - withinE n T k)
        + (((n : ℚ) - (k + 1)) / n) * ((n : ℚ) * harmonic (k + 1) - withinE n T (k + 1)) := by
  have hn' : (n : ℚ) ≠ 0 := by exact_mod_cast hn.ne'
  have hk' : ((k : ℚ) + 1) ≠ 0 := by positivity
  rw [withinE, harmonic_succ]
  push_cast
  generalize withinE n T k = w₁
  generalize withinE n T (k + 1) = w₂
  generalize harmonic k = h
  field_simp
  ring

theorem withinE_gap_bounds (n : Nat) (hn : 0 < n) (T : Nat) :
    ∀ k, k ≤ n →
      0 ≤ (n : ℚ) * harmonic k - withinE n T k ∧
      (n : ℚ) * harmonic k - withinE n T k ≤ (n : ℚ) * k * (((n : ℚ) - 1) / n) ^ T := by
  have hn' : (0 : ℚ) < n := by exact_mod_cast hn
  induction T with
  | zero =>
    intro k _
    have h1 := harmonic_nonneg k
    have h2 := harmonic_le_self k
    simp only [withinE, sub_zero, pow_zero, mul_one]
    constructor
    · positivity
    · exact mul_le_mul_of_nonneg_left h2 hn'.le
  | succ T ih =>
    intro k hk
    cases k with
    | zero => simp [withinE]
    | succ k =>
      obtain ⟨a0, a1⟩ := ih k (by omega)
      obtain ⟨b0, b1⟩ := ih (k + 1) hk
      rw [withinE_gap_step n hn T k]
      have hc1 : (0 : ℚ) ≤ (k + 1 : ℚ) / n := by positivity
      have hc2 : (0 : ℚ) ≤ ((n : ℚ) - (k + 1)) / n := by
        apply div_nonneg _ hn'.le
        have : ((k + 1 : Nat) : ℚ) ≤ n := by exact_mod_cast hk
        push_cast at this
        linarith
      constructor
      · exact add_nonneg (mul_nonneg hc1 a0) (mul_nonneg hc2 b0)
      · have e1 := mul_le_mul_of_nonneg_left a1 hc1
        have e2 := mul_le_mul_of_nonneg_left b1 hc2
        have hid : ((k + 1 : ℚ) / n) * ((n : ℚ) * k * (((n : ℚ) - 1) / n) ^ T)
            + (((n : ℚ) - (k + 1)) / n) * ((n : ℚ) * ((k + 1 : Nat) : ℚ) * (((n : ℚ) - 1) / n) ^ T)
            = (n : ℚ) * ((k + 1 : Nat) : ℚ) * (((n : ℚ) - 1) / n) ^ (T + 1) := by
          rw [pow_succ]
          push_cast
          field_simp
          ring
        linarith

theorem meanShots_eq (rows cols : Nat) (hpos : 0 < rows * cols) (T : Nat) (s : Round)
    (hs : Tied rows cols s) :
    meanShots rows cols T s
      = s.shots + withinE (rows * cols) T (aliveCount rows cols s.target) := by
  unfold meanShots
  rw [sum_shotsWithin rows cols T s hs]
  have hn : ((rows * cols : Nat) : ℚ) ≠ 0 := by exact_mod_cast hpos.ne'
  rw [mul_div_cancel_left₀ _ (pow_ne_zero T hn)]

theorem tendsto_meanShots (rows cols : Nat) (hpos : 0 < rows * cols) (s : Round)
    (hs : Tied rows cols s) :
    Filter.Tendsto (fun T => ((meanShots rows cols T s : ℚ) : ℝ)) Filter.atTop
      (nhds ((s.shots : ℝ)
        + ((rows * cols : Nat) : ℝ) * ((harmonic (aliveCount rows cols s.target) : ℚ) : ℝ))) := by
  set n := rows * cols with hn
  set k := aliveCount rows cols s.target with hk
  have hkn : k ≤ n := aliveCount_le rows cols s.target
  have hnR : (0 : ℝ) < n := by exact_mod_cast hpos
  have hρ0 : (0 : ℝ) ≤ ((n : ℝ) - 1) / n := by
    apply div_nonneg _ hnR.le
    have : (1 : ℝ) ≤ n := by exact_mod_cast hpos
    linarith
  have hρ1 : ((n : ℝ) - 1) / n < 1 := by
    rw [div_lt_one hnR]; linarith
  have hpow := tendsto_pow_atTop_nhds_zero_of_lt_one hρ0 hρ1
  have hlow : Filter.Tendsto
      (fun T : Nat => (s.shots : ℝ) + (n : ℝ) * ((harmonic k : ℚ) : ℝ)
        - (n : ℝ) * k * (((n : ℝ) - 1) / n) ^ T) Filter.atTop
      (nhds ((s.shots : ℝ) + (n : ℝ) * ((harmonic k : ℚ) : ℝ))) := by
    have := (hpow.const_mul ((n : ℝ) * k)).const_sub
      ((s.shots : ℝ) + (n : ℝ) * ((harmonic k : ℚ) : ℝ))
    simpa using this
  refine tendsto_of_tendsto_of_tendsto_of_le_of_le hlow tendsto_const_nhds ?_ ?_
  · intro T
    have hb := (withinE_gap_bounds n hpos T k hkn).2
    have he := meanShots_eq rows cols hpos T s hs
    have hbR : ((n : ℝ) * ((harmonic k : ℚ) : ℝ) - ((withinE n T k : ℚ) : ℝ))
        ≤ (n : ℝ) * k * (((n : ℝ) - 1) / n) ^ T := by exact_mod_cast hb
    have heR : ((meanShots rows cols T s : ℚ) : ℝ) = (s.shots : ℝ) + ((withinE n T k : ℚ) : ℝ) := by
      rw [he]; push_cast; rfl
    beta_reduce
    rw [heR]; linarith
  · intro T
    have hb := (withinE_gap_bounds n hpos T k hkn).1
    have he := meanShots_eq rows cols hpos T s hs
    have hbR : (0 : ℝ) ≤ (n : ℝ) * ((harmonic k : ℚ) : ℝ) - ((withinE n T k : ℚ) : ℝ) := by
      exact_mod_cast hb
    have heR : ((meanShots rows cols T s : ℚ) : ℝ) = (s.shots : ℝ) + ((withinE n T k : ℚ) : ℝ) := by
      rw [he]; push_cast; rfl
    beta_reduce
    rw [heR]; linarith

theorem withinE_mono (n : Nat) (hn : 0 < n) (T : Nat) :
    ∀ k, k ≤ n → withinE n T k ≤ withinE n (T + 1) k := by
  have hn' : (0 : ℚ) < n := by exact_mod_cast hn
  induction T with
  | zero =>
    intro k _
    cases k with
    | zero => simp [withinE]
    | succ k => simp [withinE]
  | succ T ih =>
    intro k hk
    cases k with
    | zero => simp [withinE]
    | succ k =>
      have h1 := ih k (by omega)
      have h2 := ih (k + 1) hk
      have hc1 : (0 : ℚ) ≤ (k + 1 : ℚ) / n := by positivity
      have hc2 : (0 : ℚ) ≤ ((n : ℚ) - (k + 1)) / n := by
        apply div_nonneg _ hn'.le
        have : ((k + 1 : Nat) : ℚ) ≤ n := by exact_mod_cast hk
        push_cast at this
        linarith
      have e1 := mul_le_mul_of_nonneg_left h1 hc1
      have e2 := mul_le_mul_of_nonneg_left h2 hc2
      rw [withinE, withinE]
      linarith

theorem meanShots_mono (rows cols : Nat) (hpos : 0 < rows * cols) (s : Round)
    (hs : Tied rows cols s) (T : Nat) :
    meanShots rows cols T s ≤ meanShots rows cols (T + 1) s := by
  rw [meanShots_eq rows cols hpos T s hs, meanShots_eq rows cols hpos (T + 1) s hs]
  have := withinE_mono (rows * cols) hpos T _ (aliveCount_le rows cols s.target)
  linarith

/-! ### what a completed pass of the round body leaves behind -/

theorem roundBody_ok (rows cols : Nat) (s s' : Session) (samples rest : List (Nat × Nat))
    (hs : s.totalRounds < UINT16_RANGE)
    (h : roundBody rows cols s samples = .ok (s', rest)) :
    ∃ r, roundLoop rows cols (freshRound rows cols s.target) samples = some (r, rest) ∧
      s'.target = r.target ∧
      s'.totalShots = (s.totalShots + r.shots) % UINT16_RANGE ∧
      s'.totalRounds = s.totalRounds + 1 ∧ s'.totalRounds < UINT16_RANGE ∧
      s'.serial = s.serial ++ [⟨r.shots, s'.totalRounds, s'.totalShots,
        s'.totalShots / s'.totalRounds⟩] := by
  unfold roundBody at h
  cases hl : roundLoop rows cols (freshRound rows cols s.target) samples with
  | none => rw [hl] at h; simp at h
  | some x =>
    obtain ⟨r, rest'⟩ := x
    rw [hl] at h
    simp only at h
    by_cases hz : (s.totalRounds + 1) % UINT16_RANGE = 0
    · rw [if_pos hz] at h; simp at h
    · rw [if_neg hz] at h
      simp only [Except.ok.injEq, Prod.mk.injEq] at h
      obtain ⟨h1, h2⟩ := h
      subst h1; subst h2
      have hlt : s.totalRounds + 1 < UINT16_RANGE := by
        rcases Nat.lt_or_ge (s.totalRounds + 1) UINT16_RANGE with h | h
        · exact h
        · exfalso
          have : s.totalRounds + 1 = UINT16_RANGE := by omega
          rw [this, Nat.mod_self] at hz
          exact hz rfl
      have hmod : (s.totalRounds + 1) % UINT16_RANGE = s.totalRounds + 1 := Nat.mod_eq_of_lt hlt
      refine ⟨r, rfl, rfl, rfl, hmod, ?_, ?_⟩
      · simp only [hmod]; exact hlt
      · rfl

/-- A round that completes when `totalRounds` is 65535 ends in the division by zero, whatever
the samples were. -/
theorem roundBody_wraps (rows cols : Nat) (s : Session) (samples rest : List (Nat × Nat))
    (r : Round) (hs : s.totalRounds + 1 = UINT16_RANGE)
    (h : roundLoop rows cols (freshRound rows cols s.target) samples = some (r, rest)) :
    roundBody rows cols s samples = .error .divisionByZero := by
  unfold roundBody
  rw [h]
  simp only [hs, Nat.mod_self, if_true]

/-- Totals after `n` completed passes, for any samples: the round counter is exact, the shot
accumulator is the sum of the reported shot counts modulo 65536, every report carries the
quotient of the two accumulators. -/
theorem forRounds_totals (rows cols : Nat) (n : Nat) :
    ∀ (s s' : Session) (samples rest : List (Nat × Nat)), s.totalRounds < UINT16_RANGE →
      s.totalShots < UINT16_RANGE →
      forRounds rows cols n s samples = .ok (s', rest) →
      s'.totalRounds = s.totalRounds + n ∧ s'.totalRounds < UINT16_RANGE ∧
      (∃ news : List Report, s'.serial = s.serial ++ news ∧ news.length = n ∧
        s'.totalShots = (s.totalShots + (news.map Report.shots).sum) % UINT16_RANGE ∧
        ∀ rep ∈ news, rep.mean = rep.totalShots / rep.totalRounds ∧ 0 < rep.totalRounds) := by
  induction n with
  | zero =>
    intro s s' samples rest hs hsh h
    simp only [forRounds, Except.ok.injEq, Prod.mk.injEq] at h
    obtain ⟨rfl, -⟩ := h
    refine ⟨rfl, hs, [], by simp, rfl, ?_, by simp⟩
    simp [Nat.mod_eq_of_lt hsh]
  | succ k ih =>
    intro s s' samples rest hs hsh h
    rw [forRounds] at h
    cases hb : roundBody rows cols s samples with
    | error e => rw [hb] at h; simp at h
    | ok x =>
      obtain ⟨s₁, rest₁⟩ := x
      rw [hb] at h
      simp only at h
      obtain ⟨r, -, -, hts, htr, hlt, hser⟩ := roundBody_ok rows cols s s₁ samples rest₁ hs hb
      have hsh₁ : s₁.totalShots < UINT16_RANGE := by
        rw [hts]; exact Nat.mod_lt _ (by decide)
      obtain ⟨hr', hlt', news, hser', hlen, hts', hrep⟩ := ih s₁ s' rest₁ rest hlt hsh₁ h
      refine ⟨by omega, hlt', ⟨r.shots, s₁.totalRounds, s₁.totalShots,
        s₁.totalShots / s₁.totalRounds⟩ :: news, ?_, by simp [hlen], ?_, ?_⟩
      · rw [hser', hser, List.append_assoc]; rfl
      · rw [hts', hts]
        simp only [List.map_cons, List.sum_cons, Nat.mod_add_mod, Nat.add_assoc]
      · intro rep hrep'
        rcases List.mem_cons.mp hrep' with h1 | h1
        · subst h1
          exact ⟨rfl, by simp only; omega⟩
        · exact hrep rep h1


/-! ### the machine's counters against the counts -/

theorem toInt16_of_range (x : Int) (hlo : -32768 ≤ x) (hhi : x ≤ 32767) : toInt16 x = x := by
  unfold toInt16; omega

theorem toInt16_natCast (n : Nat) (h : n ≤ 32767) : toInt16 (n : Int) = n := by
  unfold toInt16; omega

theorem toInt16_le (x : Int) : toInt16 x ≤ 32767 := by
  unfold toInt16; omega

theorem toInt16_succ (x : Int) : toInt16 (toInt16 x + 1) = toInt16 (x + 1) := by
  unfold toInt16; omega

theorem loopBody_held (s : Round) (r c : Nat) : loopBody (held s) r c = held (shoot s r c) := by
  unfold loopBody shoot held
  by_cases h : s.target r c = 1
  · simp only [h, if_true, toInt16_succ]
    push_cast
    rfl
  · simp only [h, if_false, toInt16_succ]
    push_cast
    rfl

theorem fire_nil (s : Locals) : fire s [] = s := rfl

theorem fire_cons (s : Locals) (p : Nat × Nat) (l : List (Nat × Nat)) :
    fire s (p :: l) = fire (loopBody s p.1 p.2) l := rfl

theorem fire_held (l : List (Nat × Nat)) : ∀ s : Round, fire (held s) l = held (volley s l) := by
  induction l with
  | nil => intro s; rfl
  | cons p l ih => intro s; rw [fire_cons, loopBody_held, ih, volley_cons]

theorem toInt16_zero : toInt16 ((0 : Nat) : Int) = 0 := by
  unfold toInt16; omega

theorem roundStart_eq_held (rows cols : Nat) (t : Grid) :
    roundStart rows cols t = held (freshRound rows cols t) := by
  unfold roundStart held freshRound
  simp only [toInt16_zero]

theorem whileLoop_some (rows cols : Nat) :
    ∀ (samples : List (Nat × Nat)) (s s' : Locals) (rest : List (Nat × Nat)),
      whileLoop rows cols s samples = some (s', rest) →
      ∃ n, n ≤ samples.length ∧ s' = fire s (samples.take n) ∧ rest = samples.drop n ∧
        (∀ m < n, (fire s (samples.take m)).hits < ((cols * rows : Nat) : Int)) ∧
        ¬ s'.hits < ((cols * rows : Nat) : Int) := by
  intro samples
  induction samples with
  | nil =>
    intro s s' rest h
    by_cases h0 : s.hits < ((cols * rows : Nat) : Int)
    · rw [whileLoop, if_pos h0] at h
      exact absurd h (by simp)
    · rw [whileLoop, if_neg h0] at h
      simp only [Option.some.injEq, Prod.mk.injEq] at h
      obtain ⟨rfl, rfl⟩ := h
      exact ⟨0, by simp, by simp [fire_nil], by simp, by simp, h0⟩
  | cons p tl ih =>
    intro s s' rest h
    by_cases h0 : s.hits < ((cols * rows : Nat) : Int)
    · rw [whileLoop, if_pos h0] at h
      obtain ⟨n, hn, hs, hr, hlt, hstop⟩ := ih _ _ _ h
      refine ⟨n + 1, by simpa using hn, by simpa [fire_cons] using hs, by simpa using hr, ?_, hstop⟩
      intro m hm
      cases m with
      | zero => simpa [fire_nil] using h0
      | succ j =>
        have := hlt j (by omega)
        simpa [fire_cons] using this
    · rw [whileLoop, if_neg h0] at h
      simp only [Option.some.injEq, Prod.mk.injEq] at h
      obtain ⟨rfl, rfl⟩ := h
      exact ⟨0, by simp, by simp [fire_nil], by simp, by simp, h0⟩

/-- As long as the number of hits stays within `int` range, the machine's loop and the loop on
the counts take the same steps. -/
theorem whileLoop_held (rows cols : Nat) :
    ∀ (l : List (Nat × Nat)) (s : Round), (∀ m, (volley s (l.take m)).hits ≤ 32767) →
      whileLoop rows cols (held s) l
        = (roundLoop rows cols s l).map (fun x => (held x.1, x.2)) := by
  intro l
  induction l with
  | nil =>
    intro s hb
    have h0 : s.hits ≤ 32767 := by simpa [volley_nil] using hb 0
    have hc : (held s).hits < ((cols * rows : Nat) : Int) ↔ s.hits < cols * rows := by
      show toInt16 (s.hits : Int) < _ ↔ _
      rw [toInt16_natCast _ h0]; exact Int.ofNat_lt
    by_cases h1 : s.hits < cols * rows
    · rw [whileLoop, if_pos (hc.mpr h1), roundLoop, if_pos h1]
      rfl
    · rw [whileLoop, if_neg (fun h => h1 (hc.mp h)), roundLoop, if_neg h1]
      rfl
  | cons p l ih =>
    intro s hb
    have h0 : s.hits ≤ 32767 := by simpa [volley_nil] using hb 0
    have hc : (held s).hits < ((cols * rows : Nat) : Int) ↔ s.hits < cols * rows := by
      show toInt16 (s.hits : Int) < _ ↔ _
      rw [toInt16_natCast _ h0]; exact Int.ofNat_lt
    by_cases h1 : s.hits < cols * rows
    · rw [whileLoop, if_pos (hc.mpr h1), roundLoop, if_pos h1, loopBody_held]
      apply ih
      intro m
      have := hb (m + 1)
      simpa [volley_cons] using this
    · rw [whileLoop, if_neg (fun h => h1 (hc.mp h)), roundLoop, if_neg h1]
      rfl

theorem fresh_hits_le_length (rows cols : Nat) (t : Grid) (l : List (Nat × Nat)) :
    (volley (freshRound rows cols t) l).hits ≤ l.length := by
  have := volley_hits_le l (freshRound rows cols t)
  simpa [freshRound] using this

theorem fresh_hits_le_cells (rows cols : Nat) (t : Grid) (l : List (Nat × Nat))
    (hin : ∀ p ∈ l, p.1 < rows ∧ p.2 < cols) :
    (volley (freshRound rows cols t) l).hits ≤ rows * cols := by
  have := fresh_volley_hits rows cols t l hin
  omega

/-- The machine's round on a grid of at most 32767 cells, any number of in-bounds shots. -/
theorem whileLoop_start_of_small_grid (rows cols : Nat) (t : Grid) (l : List (Nat × Nat))
    (hfit : rows * cols ≤ 32767) (hin : ∀ p ∈ l, p.1 < rows ∧ p.2 < cols) :
    whileLoop rows cols (roundStart rows cols t) l
      = (roundLoop rows cols (freshRound rows cols t) l).map (fun x => (held x.1, x.2)) := by
  rw [roundStart_eq_held]
  apply whileLoop_held
  intro m
  exact le_trans (fresh_hits_le_cells rows cols t _ (mem_take_bounds hin m)) hfit

/-- The machine's round on at most 32767 shots, any grid. -/
theorem whileLoop_start_of_short (rows cols : Nat) (t : Grid) (l : List (Nat × Nat))
    (hlen : l.length ≤ 32767) :
    whileLoop rows cols (roundStart rows cols t) l
      = (roundLoop rows cols (freshRound rows cols t) l).map (fun x => (held x.1, x.2)) := by
  rw [roundStart_eq_held]
  apply whileLoop_held
  intro m
  have h1 := fresh_hits_le_length rows cols t (l.take m)
  have h2 : (l.take m).length ≤ l.length := by rw [List.length_take]; omega
  omega

theorem fire_start (rows cols : Nat) (t : Grid) (l : List (Nat × Nat)) :
    fire (roundStart rows cols t) l = held (volley (freshRound rows cols t) l) := by
  rw [roundStart_eq_held, fire_held]

theorem fire_start_target (rows cols : Nat) (t : Grid) (l : List (Nat × Nat)) :
    (fire (roundStart rows cols t) l).target = (volley (freshRound rows cols t) l).target := by
  rw [fire_start]; rfl

theorem fire_start_shots (rows cols : Nat) (t : Grid) (l : List (Nat × Nat)) :
    (fire (roundStart rows cols t) l).shots = toInt16 (l.length : Int) := by
  rw [fire_start]
  show toInt16 ((volley (freshRound rows cols t) l).shots : Int) = _
  rw [volley_shots]
  simp [freshRound]

theorem fire_start_hits (rows cols : Nat) (t : Grid) (l : List (Nat × Nat)) :
    (fire (roundStart rows cols t) l).hits
      = toInt16 ((volley (freshRound rows cols t) l).hits : Int) := by
  rw [fire_start]; rfl

/-! ### a round of 32768 shots -/

theorem sweep_4_20_split : sweep 4 20 = (sweep 4 20).dropLast ++ [(3, 19)] := by decide

theorem longRound_length : longRound.length = 32768 := by
  unfold longRound
  rw [List.length_append, List.length_replicate, sweep_length]

theorem longRound_bounds : ∀ p ∈ longRound, p.1 < 4 ∧ p.2 < 20 := by
  intro p hp
  unfold longRound at hp
  rcases List.mem_append.mp hp with h | h
  · rw [List.eq_of_mem_replicate h]; decide
  · exact mem_sweep.mp h

theorem longRound_covers : covers 4 20 longRound := by
  intro r hr c hc
  unfold longRound
  exact List.mem_append_right _ ((@mem_sweep 4 20 (r, c)).mpr ⟨hr, hc⟩)

theorem longRound_no_early_cover : ∀ m < 32768, ¬ covers 4 20 (longRound.take m) := by
  intro m hm hcov
  have hmem : ((3, 19) : Nat × Nat) ∈ longRound.take m := hcov 3 (by decide) 19 (by decide)
  have hsplit : longRound
      = (List.replicate 32688 ((0, 0) : Nat × Nat) ++ (sweep 4 20).dropLast) ++ [(3, 19)] := by
    unfold longRound
    rw [List.append_assoc, ← sweep_4_20_split]
  have hlen : (List.replicate 32688 ((0, 0) : Nat × Nat) ++ (sweep 4 20).dropLast).length
      = 32767 := by
    rw [List.length_append, List.length_replicate, List.length_dropLast, sweep_length]
  rw [hsplit, List.take_append_of_le_length (by rw [hlen]; omega)] at hmem
  rcases List.mem_append.mp (List.mem_of_mem_take hmem) with h | h
  · have := List.eq_of_mem_replicate h
    exact absurd this (by decide)
  · exact absurd h (by decide)

theorem roundLoop_longRound (t : Grid) :
    roundLoop 4 20 (freshRound 4 20 t) longRound
      = some (volley (freshRound 4 20 t) longRound, []) := by
  have h := roundLoop_fresh_of_first_cover 4 20 t longRound 32768
    (by rw [longRound_length])
    (fun p hp => longRound_bounds p (List.mem_of_mem_take hp))
    (fun r hr c hc => by
      rw [List.take_of_length_le (by rw [longRound_length])]
      exact longRound_covers r hr c hc)
    longRound_no_early_cover
  rw [List.take_of_length_le (by rw [longRound_length]),
    List.drop_of_length_le (by rw [longRound_length])] at h
  exact h

theorem whileLoop_longRound (t : Grid) :
    whileLoop 4 20 (roundStart 4 20 t) longRound
      = some (fire (roundStart 4 20 t) longRound, []) := by
  rw [whileLoop_start_of_small_grid 4 20 t longRound (by decide) longRound_bounds,
    roundLoop_longRound, fire_start, Option.map_some']

theorem fire_longRound_shots (t : Grid) :
    (fire (roundStart 4 20 t) longRound).shots = -32768 := by
  rw [fire_start_shots, longRound_length]
  decide

theorem fire_longRound_hits (t : Grid) :
    (fire (roundStart 4 20 t) longRound).hits = 80 := by
  rw [fire_start_hits]
  have h1 := fresh_volley_hits 4 20 t longRound longRound_bounds
  have h2 := (fresh_alive_zero_iff_covers 4 20 t longRound).mpr longRound_covers
  have h3 : (volley (freshRound 4 20 t) longRound).hits = 80 := by omega
  rw [h3]
  decide

/-! ### rounds that stay within `int` range -/

theorem fire_start_shots_short (rows cols : Nat) (t : Grid) (l : List (Nat × Nat))
    (hlen : l.length ≤ 32767) : (fire (roundStart rows cols t) l).shots = (l.length : Int) := by
  rw [fire_start_shots, toInt16_natCast _ hlen]

theorem fire_start_hits_short (rows cols : Nat) (t : Grid) (l : List (Nat × Nat))
    (hlen : l.length ≤ 32767) :
    (fire (roundStart rows cols t) l).hits
      = ((volley (freshRound rows cols t) l).hits : Int) := by
  rw [fire_start_hits, toInt16_natCast _ (le_trans (fresh_hits_le_length rows cols t l) hlen)]

theorem observeLocals_start_short (rows cols : Nat) (t : Grid) (l : List (Nat × Nat))
    (hlen : l.length ≤ 32767) :
    observeLocals (whileLoop rows cols (roundStart rows cols t) l)
      = specObserved (observe (roundLoop rows cols (freshRound rows cols t) l)) := by
  rw [whileLoop_start_of_short rows cols t l hlen]
  cases hr : roundLoop rows cols (freshRound rows cols t) l with
  | none => rfl
  | some x =>
    obtain ⟨r, rest⟩ := x
    obtain ⟨n, hn, hs, -, -, -⟩ := roundLoop_some rows cols l _ _ _ hr
    have hsh : r.shots ≤ 32767 := by
      rw [hs, volley_shots]
      have : (l.take n).length ≤ l.length := by rw [List.length_take]; omega
      simp only [freshRound]
      omega
    show some ((held r).target, (held r).shots, rest) = some (r.target, (r.shots : Int), rest)
    have : (held r).shots = (r.shots : Int) := toInt16_natCast _ hsh
    rw [this]
    rfl

theorem volley_replicate_dead (p : Nat × Nat) (n : Nat) :
    ∀ s : Round, ¬ s.target p.1 p.2 = 1 → (volley s (List.replicate n p)).hits = s.hits := by
  induction n with
  | zero => intro s _; rfl
  | succ k ih =>
    intro s h
    have hs : shoot s p.1 p.2 = { s with shots := s.shots + 1 } := by
      unfold shoot; rw [if_neg h]
    rw [List.replicate_succ, volley_cons, hs]
    exact ih _ h

theorem volley_replicate_alive (p : Nat × Nat) (n : Nat) (hn : 0 < n) (s : Round)
    (h : s.target p.1 p.2 = 1) : (volley s (List.replicate n p)).hits = s.hits + 1 := by
  obtain ⟨k, rfl⟩ := Nat.exists_eq_succ_of_ne_zero (Nat.pos_iff_ne_zero.mp hn)
  rw [List.replicate_succ, volley_cons, volley_replicate_dead p k]
  · unfold shoot; rw [if_pos h]
  · rw [shoot_target]
    simp [h]

theorem fresh_target_alive (rows cols : Nat) (t : Grid) (r c : Nat) (hr : r < rows)
    (hc : c < cols) : (freshRound rows cols t).target r c = 1 := by
  show placeTinCans rows cols t r c = 1
  rw [placeTinCans_apply, if_pos ⟨hr, hc⟩]

theorem observeLocals_some_shots (s : Locals) (rest : List (Nat × Nat)) :
    (observeLocals (some (s, rest))).map (fun x => x.2.1) = some s.shots := rfl

theorem specObserved_observe_some_shots (r : Round) (rest : List (Nat × Nat)) :
    (specObserved (observe (some (r, rest)))).map (fun x => x.2.1) = some (r.shots : Int) := rfl

theorem volley_longRound_shots (t : Grid) :
    (volley (freshRound 4 20 t) longRound).shots = 32768 := by
  rw [volley_shots, longRound_length]
  exact Nat.zero_add 32768

/-- Adding the `int` value of `shots` to a `uint16_t` gives the same accumulator as adding the
number of shots: the two agree modulo 65536. -/
theorem toInt16_emod (x : Int) : toInt16 x % 65536 = x % 65536 := by
  unfold toInt16; omega

/-- On a grid of at most 32767 cells the machine's loop, fed every coordinate once in any order,
reads the whole list and exits with `shots = rows * cols` and `hits = rows * cols`. -/
theorem whileLoop_each_cell_once (rows cols : Nat) (t : Grid) (samples : List (Nat × Nat))
    (hgrid : rows * cols ≤ 32767) (hnd : samples.Nodup)
    (hin : ∀ p ∈ samples, p.1 < rows ∧ p.2 < cols) (hlen : samples.length = rows * cols) :
    whileLoop rows cols (roundStart rows cols t) samples
      = some (fire (roundStart rows cols t) samples, []) ∧
    (fire (roundStart rows cols t) samples).shots = ((rows * cols : Nat) : Int) ∧
    (fire (roundStart rows cols t) samples).hits = ((rows * cols : Nat) : Int) := by
  have hcov := covers_of_nodup rows cols samples hnd hin hlen
  have hmin : ∀ m < samples.length, ¬ covers rows cols (samples.take m) := by
    intro m hm hc
    have := covers_length_ge rows cols _ hc
    rw [List.length_take] at this
    omega
  have hrun := roundLoop_fresh_of_first_cover rows cols t samples samples.length
    (Nat.le_refl _) (by simpa using hin) (by simpa using hcov) hmin
  simp only [List.take_length, List.drop_length] at hrun
  have hshort : samples.length ≤ 32767 := by omega
  refine ⟨?_, ?_, ?_⟩
  · rw [whileLoop_start_of_short rows cols t samples hshort, hrun, fire_start, Option.map_some']
  · rw [fire_start_shots_short rows cols t samples hshort, hlen]
  · rw [fire_start_hits_short rows cols t samples hshort]
    have h1 := fresh_volley_hits rows cols t _ hin
    have h2 := (fresh_alive_zero_iff_covers rows cols t samples).mpr hcov
    have : (volley (freshRound rows cols t) samples).hits = rows * cols := by omega
    rw [this]
/-! ## Round engine: the claims -/

/-- C1, refuted as stated: the round of `longRound` on the 4 × 20 grid is made of in-bounds
shots and completes, and `shots` is -32768 at exit, below the 80 cells of the grid. -/
theorem long_round_shots_below_cells :
    (∀ p ∈ longRound, p.1 < 4 ∧ p.2 < 20) ∧
    whileLoop 4 20 (roundStart 4 20 (fun _ _ => 0)) longRound
      = some (fire (roundStart 4 20 (fun _ _ => 0)) longRound, []) ∧
    (fire (roundStart 4 20 (fun _ _ => 0)) longRound).shots = -32768 ∧
    ¬ (((4 * 20 : Nat) : Int) ≤ (fire (roundStart 4 20 (fun _ _ => 0)) longRound).shots) := by
  refine ⟨longRound_bounds, whileLoop_longRound _, fire_longRound_shots _, ?_⟩
  rw [fire_longRound_shots]
  decide

/-- C1, amended: whenever the round loop, started on a freshly placed `rows × cols` grid and fed
in-bounds shots, exits after reading at most 32767 samples (`INT_MAX`), the value of `shots` it
hands on is at least `rows * cols`. -/
theorem shots_at_least_cells (rows cols : Nat) (t : Grid) (samples rest : List (Nat × Nat))
    (s' : Locals) (hin : ∀ p ∈ samples, p.1 < rows ∧ p.2 < cols)
    (hdone : whileLoop rows cols (roundStart rows cols t) samples = some (s', rest))
    (hfit : samples.length - rest.length ≤ 32767) :
    ((rows * cols : Nat) : Int) ≤ s'.shots := by
  obtain ⟨n, hn, hs, hr, -, hstop⟩ := whileLoop_some rows cols samples _ _ _ hdone
  have _ := hin
  have hlen : (samples.take n).length = n := by rw [List.length_take]; omega
  have hn' : n ≤ 32767 := by
    rw [hr, List.length_drop] at hfit
    omega
  have hsh := fire_start_shots_short rows cols t (samples.take n) (by rw [hlen]; exact hn')
  have hhi := fire_start_hits_short rows cols t (samples.take n) (by rw [hlen]; exact hn')
  have hle := fresh_hits_le_length rows cols t (samples.take n)
  rw [← hs] at hsh hhi
  rw [hhi] at hstop
  rw [hsh, hlen]
  rw [hlen] at hle
  have h1 : cols * rows ≤ (volley (freshRound rows cols t) (samples.take n)).hits := by
    by_contra hlt
    exact hstop (Int.ofNat_lt.mpr (Nat.lt_of_not_le hlt))
  rw [Nat.mul_comm rows cols]
  exact Int.ofNat_le.mpr (le_trans h1 hle)

theorem shots_at_least_cells_witness :
    ∃ s', whileLoop 2 2 (roundStart 2 2 (fun _ _ => 0))
        [(0, 0), (0, 0), (1, 1), (0, 1), (1, 0), (0, 1)] = some (s', [(0, 1)]) ∧
      ((2 * 2 : Nat) : Int) ≤ s'.shots :=
  ⟨fire (roundStart 2 2 (fun _ _ => 0)) [(0, 0), (0, 0), (1, 1), (0, 1), (1, 0)], rfl,
    shots_at_least_cells 2 2 (fun _ _ => 0) [(0, 0), (0, 0), (1, 1), (0, 1), (1, 0), (0, 1)]
      [(0, 1)] _ (by decide) rfl (by decide)⟩

/-- C7, refuted as stated: in the round on the 4 × 20 grid, after 32767 shots at (0, 0) the can
at (0, 0) is down, one can has been hit (the loop goes on) and `shots` is 32767; the next shot
at (0, 0) leaves `shots` at -32768, not at 32768. -/
theorem dead_shot_at_int_max :
    (fire (roundStart 4 20 (fun _ _ => 0)) (List.replicate 32767 (0, 0))).target 0 0 = 0 ∧
    (fire (roundStart 4 20 (fun _ _ => 0)) (List.replicate 32767 (0, 0))).hits = 1 ∧
    (fire (roundStart 4 20 (fun _ _ => 0)) (List.replicate 32767 (0, 0))).shots = 32767 ∧
    (loopBody (fire (roundStart 4 20 (fun _ _ => 0)) (List.replicate 32767 (0, 0))) 0 0).shots
      = -32768 ∧
    (loopBody (fire (roundStart 4 20 (fun _ _ => 0)) (List.replicate 32767 (0, 0))) 0 0).shots
      ≠ (fire (roundStart 4 20 (fun _ _ => 0)) (List.replicate 32767 (0, 0))).shots + 1 := by
  have hmem : ((0, 0) : Nat × Nat) ∈ List.replicate 32767 ((0, 0) : Nat × Nat) :=
    List.mem_replicate.mpr ⟨by decide, rfl⟩
  have htarget : (fire (roundStart 4 20 (fun _ _ => 0)) (List.replicate 32767 (0, 0))).target 0 0
      = 0 := by
    rw [fire_start_target, fresh_volley_target 4 20 _ _ 0 0 (by decide) (by decide), if_pos hmem]
  have hshots : (fire (roundStart 4 20 (fun _ _ => 0)) (List.replicate 32767 (0, 0))).shots
      = 32767 := by
    rw [fire_start_shots, List.length_replicate]; decide
  have hhits : (fire (roundStart 4 20 (fun _ _ => 0)) (List.replicate 32767 (0, 0))).hits
      = 1 := by
    rw [fire_start_hits]
    rw [volley_replicate_alive (0, 0) 32767 (by decide) (freshRound 4 20 (fun _ _ => 0))
      (fresh_target_alive 4 20 _ 0 0 (by decide) (by decide))]
    decide
  have hnext : (loopBody (fire (roundStart 4 20 (fun _ _ => 0)) (List.replicate 32767 (0, 0)))
      0 0).shots = -32768 := by
    unfold loopBody
    rw [if_neg (by rw [htarget]; decide)]
    show toInt16 (_ + 1) = -32768
    rw [hshots]; decide
  refine ⟨htarget, hhits, hshots, hnext, ?_⟩
  rw [hnext, hshots]; decide

/-- C7, amended: a shot at an in-bounds coordinate whose can is already down (cell value 0)
leaves the whole grid and the hit counter as they were; it adds exactly one to `shots` when
`shots` (an `int`, so at least `INT_MIN`) is below `INT_MAX`, and the repeated shot adds exactly
two when `shots + 1` is below `INT_MAX` too; the alive count is unchanged, and an iteration of
the loop on that coordinate goes on from the state that differs only in `shots`. -/
theorem dead_shot_only_counts (rows cols : Nat) (s : Locals) (row col : Nat)
    (hr : row < rows) (hc : col < cols) (hdead : s.target row col = 0)
    (hlo : INT_MIN ≤ s.shots) (hhi : s.shots < INT_MAX) :
    (loopBody s row col).target = s.target ∧ (loopBody s row col).hits = s.hits ∧
    (loopBody s row col).shots = s.shots + 1 ∧
    aliveCount rows cols (loopBody s row col).target = aliveCount rows cols s.target ∧
    (loopBody (loopBody s row col) row col).target = s.target ∧
    (loopBody (loopBody s row col) row col).hits = s.hits ∧
    (s.shots + 1 < INT_MAX → (loopBody (loopBody s row col) row col).shots = s.shots + 2) ∧
    aliveCount rows cols (loopBody (loopBody s row col) row col).target
      = aliveCount rows cols s.target ∧
    (∀ rest, s.hits < ((cols * rows : Nat) : Int) →
      whileLoop rows cols s ((row, col) :: rest)
        = whileLoop rows cols { s with shots := s.shots + 1 } rest) := by
  have hinc : toInt16 (s.shots + 1) = s.shots + 1 := by
    unfold INT_MIN at hlo
    unfold INT_MAX at hhi
    exact toInt16_of_range _ (by omega) (by omega)
  have h1 : loopBody s row col = { s with shots := s.shots + 1 } := by
    unfold loopBody
    rw [if_neg (by rw [hdead]; decide), hinc]
  have h2 : loopBody { s with shots := s.shots + 1 } row col
      = { s with shots := toInt16 (s.shots + 1 + 1) } := by
    unfold loopBody
    rw [if_neg (by show ¬ s.target row col = 1; rw [hdead]; decide)]
  have _ := hr
  have _ := hc
  rw [h1, h2]
  refine ⟨rfl, rfl, rfl, rfl, rfl, rfl, ?_, rfl, ?_⟩
  · intro h
    unfold INT_MIN at hlo
    unfold INT_MAX at h
    show toInt16 (s.shots + 1 + 1) = s.shots + 2
    rw [toInt16_of_range _ (by omega) (by omega)]
    omega
  · intro rest hlt
    rw [whileLoop, if_pos hlt, h1]

theorem dead_shot_only_counts_witness :
    (loopBody (fire (roundStart 2 2 (fun _ _ => 0)) [(0, 1)]) 0 1).target
        = (fire (roundStart 2 2 (fun _ _ => 0)) [(0, 1)]).target ∧
    (loopBody (fire (roundStart 2 2 (fun _ _ => 0)) [(0, 1)]) 0 1).hits = 1 ∧
    (loopBody (fire (roundStart 2 2 (fun _ _ => 0)) [(0, 1)]) 0 1).shots = 1 + 1 :=
  have h := dead_shot_only_counts 2 2 (fire (roundStart 2 2 (fun _ _ => 0)) [(0, 1)]) 0 1
    (by decide) (by decide) (by decide) (by decide) (by decide)
  ⟨h.1, h.2.1, h.2.2.1⟩

/-- C8: whatever the array held before, `placeTinCans` leaves every cell of the grid at 1; and
from that grid, for every ordering of the `rows * cols` distinct in-bounds coordinates, each shot
once, the loop reads the whole sequence, exits with `shots = rows * cols`, and no cell is alive. -/
theorem one_shot_per_can (rows cols : Nat) (t : Grid) (samples : List (Nat × Nat))
    (hnd : samples.Nodup) (hin : ∀ p ∈ samples, p.1 < rows ∧ p.2 < cols)
    (hlen : samples.length = rows * cols) :
    (∀ r < rows, ∀ c < cols, placeTinCans rows cols t r c = 1) ∧
    ∃ s', roundLoop rows cols (freshRound rows cols t) samples = some (s', []) ∧
      s'.shots = rows * cols ∧ s'.hits = rows * cols ∧
      aliveCount rows cols s'.target = 0 ∧
      (∀ r < rows, ∀ c < cols, s'.target r c = 0) := by
  constructor
  · intro r hr c hc
    rw [placeTinCans_apply, if_pos ⟨hr, hc⟩]
  · have hcov := covers_of_nodup rows cols samples hnd hin hlen
    have hmin : ∀ m < samples.length, ¬ covers rows cols (samples.take m) := by
      intro m hm hc
      have := covers_length_ge rows cols _ hc
      rw [List.length_take] at this
      omega
    have hrun := roundLoop_fresh_of_first_cover rows cols t samples samples.length
      (Nat.le_refl _) (by simpa using hin) (by simpa using hcov) hmin
    simp only [List.take_length, List.drop_length] at hrun
    refine ⟨_, hrun, ?_, ?_, ?_, ?_⟩
    · rw [volley_shots]; simp [freshRound, hlen]
    · have h1 := fresh_volley_hits rows cols t _ hin
      have h2 := (fresh_alive_zero_iff_covers rows cols t samples).mpr hcov
      omega
    · exact (fresh_alive_zero_iff_covers rows cols t samples).mpr hcov
    · intro r hr c hc
      rw [fresh_volley_target rows cols t _ r c hr hc, if_pos (hcov r hr c hc)]

theorem one_shot_per_can_witness :
    (∀ r < 2, ∀ c < 2, placeTinCans 2 2 (fun i j => i + j) r c = 1) ∧
    ∃ s', roundLoop 2 2 (freshRound 2 2 (fun i j => i + j)) [(1, 0), (0, 0), (1, 1), (0, 1)]
        = some (s', []) ∧
      s'.shots = 2 * 2 ∧ s'.hits = 2 * 2 ∧ aliveCount 2 2 s'.target = 0 ∧
      (∀ r < 2, ∀ c < 2, s'.target r c = 0) :=
  one_shot_per_can 2 2 (fun i j => i + j) [(1, 0), (0, 0), (1, 1), (0, 1)]
    (by decide) (by decide) (by decide)

/-- C9: within a round (any shots `before`, then any shots `later`, from a freshly placed grid):
a cell that is down stays down; a cell that is up goes down only through a shot at its own
coordinate, and it does go down then; one shot changes no cell but the one it aims at. -/
theorem cans_fall_once (rows cols : Nat) (t : Grid) (before later : List (Nat × Nat))
    (i j : Nat) :
    ((volley (freshRound rows cols t) before).target i j = 0 →
      (volley (freshRound rows cols t) (before ++ later)).target i j = 0) ∧
    ((volley (freshRound rows cols t) before).target i j = 1 → (i, j) ∉ later →
      (volley (freshRound rows cols t) (before ++ later)).target i j = 1) ∧
    ((volley (freshRound rows cols t) before).target i j = 1 → (i, j) ∈ later →
      (volley (freshRound rows cols t) (before ++ later)).target i j = 0) ∧
    (∀ (s : Round) (row col : Nat), (i, j) ≠ (row, col) →
      (shoot s row col).target i j = s.target i j) := by
  rw [volley_append]
  refine ⟨?_, ?_, ?_, ?_⟩
  · intro h
    rw [volley_target, h]; simp
  · intro h hn
    rw [volley_target, h]; simp [hn]
  · intro h hm
    rw [volley_target, h]; simp [hm]
  · intro s row col hne
    rw [shoot_target]
    have : ¬ (i = row ∧ j = col ∧ s.target row col = 1) :=
      fun h => hne (by rw [h.1, h.2.1])
    rw [if_neg this]

theorem cans_fall_once_witness :
    (volley (freshRound 2 2 (fun _ _ => 0)) ([(0, 1)] ++ [(1, 1), (0, 1)])).target 0 1 = 0 ∧
    (volley (freshRound 2 2 (fun _ _ => 0)) ([(0, 1)] ++ [(1, 1), (0, 1)])).target 0 0 = 1 ∧
    (volley (freshRound 2 2 (fun _ _ => 0)) ([(0, 1)] ++ [(1, 1), (0, 1)])).target 1 1 = 0 :=
  ⟨(cans_fall_once 2 2 (fun _ _ => 0) [(0, 1)] [(1, 1), (0, 1)] 0 1).1 (by decide),
   (cans_fall_once 2 2 (fun _ _ => 0) [(0, 1)] [(1, 1), (0, 1)] 0 0).2.1 (by decide) (by decide),
   (cans_fall_once 2 2 (fun _ _ => 0) [(0, 1)] [(1, 1), (0, 1)] 1 1).2.2.1 (by decide) (by decide)⟩


/-- C10, refuted as stated: after the in-bounds shots of `longRound` on the freshly placed
4 × 20 grid, `hits` is 80 and `shots` is -32768, so `hits ≤ shots` fails; the specified loop on
`allDead()` hands on 32768 shots, the code's loop -32768. -/
theorem long_round_hits_exceed_shots :
    (∀ p ∈ longRound, p.1 < 4 ∧ p.2 < 20) ∧
    (fire (roundStart 4 20 (fun _ _ => 0)) longRound).hits = 80 ∧
    (fire (roundStart 4 20 (fun _ _ => 0)) longRound).shots = -32768 ∧
    ¬ ((fire (roundStart 4 20 (fun _ _ => 0)) longRound).hits
        ≤ (fire (roundStart 4 20 (fun _ _ => 0)) longRound).shots) ∧
    (observeLocals (whileLoop 4 20 (roundStart 4 20 (fun _ _ => 0)) longRound)).map
        (fun x => x.2.1) = some (-32768) ∧
    (specObserved (specLoop 4 20 (specReset 4 20 (fun _ _ => 0)) 0 longRound)).map
        (fun x => x.2.1) = some 32768 := by
  refine ⟨longRound_bounds, fire_longRound_hits _, fire_longRound_shots _, ?_, ?_, ?_⟩
  · rw [fire_longRound_hits, fire_longRound_shots]; decide
  · rw [whileLoop_longRound, observeLocals_some_shots, fire_longRound_shots]
  · rw [specReset_eq_place]
    have h := roundLoop_refines_specLoop 4 20 longRound (freshRound 4 20 (fun _ _ => 0))
      (tied_fresh 4 20 _) longRound_bounds
    have e : specLoop 4 20 (placeTinCans 4 20 (fun _ _ => 0)) 0 longRound
        = observe (roundLoop 4 20 (freshRound 4 20 (fun _ _ => 0)) longRound) := h.symm
    rw [e, roundLoop_longRound, specObserved_observe_some_shots, volley_longRound_shots]
    rfl

/-- C10, amended: after in-bounds shots from a freshly placed grid with `hits = 0`, on a grid of
at most 32767 cells or within the first 32767 shots (`INT_MAX`), `hits` is the number of grid
cells that are 0, so the loop condition `hits < cols * rows` is false exactly when `allDead`
holds; within the first 32767 shots also `hits ≤ shots`, and on a sample list of at most 32767
shots the code's loop hands on the same grid, shot count and unread samples as the specified
loop that terminates on `allDead()` (and, on a grid with at least one cell, as the specified
InProgress/Complete machine). -/
theorem hits_counts_dead_cells (rows cols : Nat) (t : Grid) (l : List (Nat × Nat))
    (hin : ∀ p ∈ l, p.1 < rows ∧ p.2 < cols)
    (hfit : rows * cols ≤ 32767 ∨ l.length ≤ 32767) :
    (fire (roundStart rows cols t) l).hits
        = (deadCount rows cols (fire (roundStart rows cols t) l).target : Int) ∧
    (¬ (fire (roundStart rows cols t) l).hits < ((cols * rows : Nat) : Int)
        ↔ allDead rows cols (fire (roundStart rows cols t) l).target = true) ∧
    (l.length ≤ 32767 →
      (fire (roundStart rows cols t) l).hits ≤ (fire (roundStart rows cols t) l).shots ∧
      observeLocals (whileLoop rows cols (roundStart rows cols t) l)
          = specObserved (specLoop rows cols (specReset rows cols t) 0 l) ∧
      (0 < rows * cols → observeLocals (whileLoop rows cols (roundStart rows cols t) l)
          = specObserved (specMachine rows cols (specReset rows cols t) 0 l))) := by
  have htied := tied_fresh rows cols t
  have hbound : (volley (freshRound rows cols t) l).hits ≤ 32767 := by
    rcases hfit with h | h
    · exact le_trans (fresh_hits_le_cells rows cols t l hin) h
    · exact le_trans (fresh_hits_le_length rows cols t l) h
  have hh : (fire (roundStart rows cols t) l).hits
      = ((volley (freshRound rows cols t) l).hits : Int) := by
    rw [fire_start_hits, toInt16_natCast _ hbound]
  have ht := fire_start_target rows cols t l
  refine ⟨?_, ?_, ?_⟩
  · rw [hh, ht]
    have h1 := fresh_volley_hits rows cols t l hin
    have h2 := dead_add_alive_fresh rows cols t l
    exact congrArg Int.ofNat (by omega)
  · rw [hh, ht, ← tied_cond_iff (tied_volley l htied hin)]
    exact not_congr Int.ofNat_lt
  · intro hlen
    have hs := fire_start_shots_short rows cols t l hlen
    refine ⟨?_, ?_, ?_⟩
    · rw [hh, hs]
      exact Int.ofNat_le.mpr (fresh_hits_le_length rows cols t l)
    · rw [observeLocals_start_short rows cols t l hlen,
        roundLoop_refines_specLoop rows cols l _ htied hin, specReset_eq_place]
      rfl
    · intro hpos
      rw [observeLocals_start_short rows cols t l hlen,
        roundLoop_refines_specMachine rows cols l _ htied
          (by simpa [freshRound, Nat.mul_comm] using hpos) hin, specReset_eq_place]
      rfl

theorem hits_counts_dead_cells_witness :
    (fire (roundStart 2 2 (fun _ _ => 0)) [(0, 0), (0, 0), (1, 1), (0, 1), (1, 0)]).hits
        = (deadCount 2 2
          (fire (roundStart 2 2 (fun _ _ => 0)) [(0, 0), (0, 0), (1, 1), (0, 1), (1, 0)]).target
            : Int) ∧
    (fire (roundStart 2 2 (fun _ _ => 0)) [(0, 0), (0, 0), (1, 1), (0, 1), (1, 0)]).hits = 4 ∧
    observeLocals
        (whileLoop 2 2 (roundStart 2 2 (fun _ _ => 0)) [(0, 0), (0, 0), (1, 1), (0, 1), (1, 0)])
      = specObserved
        (specLoop 2 2 (specReset 2 2 (fun _ _ => 0)) 0 [(0, 0), (0, 0), (1, 1), (0, 1), (1, 0)]) ∧
    observeLocals
        (whileLoop 2 2 (roundStart 2 2 (fun _ _ => 0)) [(0, 0), (0, 0), (1, 1), (0, 1), (1, 0)])
      = specObserved
        (specMachine 2 2 (specReset 2 2 (fun _ _ => 0)) 0
          [(0, 0), (0, 0), (1, 1), (0, 1), (1, 0)]) :=
  have h := hits_counts_dead_cells 2 2 (fun _ _ => 0) [(0, 0), (0, 0), (1, 1), (0, 1), (1, 0)]
    (by decide) (Or.inl (by decide))
  ⟨h.1, by decide, (h.2.2 (by decide)).2.1, (h.2.2 (by decide)).2.2 (by decide)⟩

/-! ## Statistics: what the 16-bit accumulators do on a long run -/

/-- C3 (evaluation at the failing input): the sketch on the 4 × 20 grid, 82 passes of `loop()`
(820 rounds), every round fed one sweep of the grid. All 820 rounds complete with 80 shots each,
so the shot counts sum to 65600, but the accumulator `totalShots` holds 64. -/
theorem totalShots_wraps_after_820_rounds :
    ∃ s', sketch LCD_ROWS LCD_COLUMNS 82 boot (cycle 820 (sweep LCD_ROWS LCD_COLUMNS))
        = .ok (s', []) ∧
      s'.serial.map Report.shots = List.replicate 820 80 ∧
      (s'.serial.map Report.shots).sum = 65600 ∧
      s'.totalRounds = 820 ∧
      s'.totalShots = 64 := by
  obtain ⟨s', hrun, hshots, hrounds, hser, -⟩ :=
    forRounds_sweeps LCD_ROWS LCD_COLUMNS 820 boot [] (by decide) (by decide)
  refine ⟨s', ?_, ?_, ?_, ?_, ?_⟩
  · rw [sketch_eq_forRounds]
    simpa using hrun
  · exact hser
  · have e : s'.serial.map Report.shots = List.replicate 820 80 := hser
    rw [e, List.sum_replicate]
    rfl
  · simpa [boot] using hrounds
  · rw [hshots]
    decide

/-- C4 (evaluation at the failing input): the sketch on the 4 × 20 grid, 100 passes of `loop()`
(1000 rounds), every round fed one sweep. Each round takes 80 shots, so the quotient of the sum
of the shot counts by the number of rounds is 80000 / 1000 = 80; the report of round 1000
carries `totalShots = 14464` and the mean 14. -/
theorem mean_drifts_after_1000_rounds :
    ∃ s', sketch LCD_ROWS LCD_COLUMNS 100 boot (cycle 1000 (sweep LCD_ROWS LCD_COLUMNS))
        = .ok (s', []) ∧
      s'.serial.map Report.shots = List.replicate 1000 80 ∧
      (s'.serial.map Report.shots).sum / (s'.serial.map Report.shots).length = 80 ∧
      s'.serial.getLast? = some ⟨80, 1000, 14464, 14⟩ := by
  obtain ⟨s', hrun, hshots, hrounds, hser, hlast⟩ :=
    forRounds_sweeps LCD_ROWS LCD_COLUMNS 1000 boot [] (by decide) (by decide)
  have hsh : s'.totalShots = 14464 := by rw [hshots]; decide
  have hro : s'.totalRounds = 1000 := by simpa [boot] using hrounds
  refine ⟨s', ?_, ?_, ?_, ?_⟩
  · rw [sketch_eq_forRounds]
    simpa using hrun
  · exact hser
  · have e : s'.serial.map Report.shots = List.replicate 1000 80 := hser
    rw [e, List.sum_replicate, List.length_replicate]
    rfl
  · rw [hlast (by decide), hsh, hro]
    rfl

/-- C5 (evaluation at the failing input): the sketch on the 4 × 20 grid, every round fed one
sweep. After 65535 completed rounds `totalRounds` is 65535; the next round increments it to 0,
and the pass of `loop()` that contains round 65536 evaluates `totalShots / totalRounds` with
divisor 0. -/
theorem division_by_zero_at_round_65536 :
    (∃ s', forRounds LCD_ROWS LCD_COLUMNS 65535 boot
          (cycle 65535 (sweep LCD_ROWS LCD_COLUMNS) ++ cycle 5 (sweep LCD_ROWS LCD_COLUMNS))
        = .ok (s', cycle 5 (sweep LCD_ROWS LCD_COLUMNS)) ∧ s'.totalRounds = 65535) ∧
    sketch LCD_ROWS LCD_COLUMNS 6554 boot (cycle 65540 (sweep LCD_ROWS LCD_COLUMNS))
      = .error .divisionByZero := by
  obtain ⟨s', hrun, -, hrounds, -, -⟩ :=
    forRounds_sweeps LCD_ROWS LCD_COLUMNS 65535 boot (cycle 5 (sweep LCD_ROWS LCD_COLUMNS))
      (by decide) (by decide)
  have hro : s'.totalRounds = 65535 := by simpa [boot] using hrounds
  refine ⟨⟨s', hrun, hro⟩, ?_⟩
  rw [sketch_eq_forRounds, show 6554 * 10 = 65535 + 5 from rfl,
    show (65540 : Nat) = 65535 + 5 from rfl, cycle_add, forRounds_add, hrun]
  show forRounds LCD_ROWS LCD_COLUMNS (4 + 1) s' (cycle (4 + 1) (sweep LCD_ROWS LCD_COLUMNS)) = _
  rw [cycle]
  exact forRounds_error _ _ 4 s' _ _
    (roundBody_sweep_wrap LCD_ROWS LCD_COLUMNS s' _ (by rw [hro]; rfl))

/-! ## The expected length of a round -/

/-- C6: with every in-bounds coordinate equally likely at each shot and shots independent (all
`(rows * cols) ^ T` sample sequences of length `T` weigh the same), the mean number of shots the
round loop takes within `T` samples grows with `T` and tends, as `T` grows, to `n * H(n)` for a
fresh round (`n = rows * cols`), and to `n * H(k)` further shots from any state of a round in
which `k` cans stand; this limit of the truncated means is the expected shot count of a round.
`E(k) = n * H(k)` obeys `E(0) = 0` and `E(k + 1) = n / (k + 1) + E(k)`; `32 * H(32)` rounds to
130 and `80 * H(80)` rounds to 397. -/
theorem expected_shots_harmonic (rows cols : Nat) (t : Grid) (l : List (Nat × Nat))
    (hpos : 0 < rows * cols) (hin : ∀ p ∈ l, p.1 < rows ∧ p.2 < cols) :
    Filter.Tendsto (fun T => ((meanShots rows cols T (freshRound rows cols t) : ℚ) : ℝ))
      Filter.atTop (nhds (((rows * cols : Nat) : ℝ) * ((harmonic (rows * cols) : ℚ) : ℝ))) ∧
    (∀ T, meanShots rows cols T (freshRound rows cols t)
      ≤ meanShots rows cols (T + 1) (freshRound rows cols t)) ∧
    Filter.Tendsto
      (fun T => ((meanShots rows cols T (volley (freshRound rows cols t) l) : ℚ) : ℝ)
        - ((volley (freshRound rows cols t) l).shots : ℝ))
      Filter.atTop
      (nhds (((rows * cols : Nat) : ℝ)
        * ((harmonic (aliveCount rows cols (volley (freshRound rows cols t) l).target) : ℚ) : ℝ))) ∧
    ((rows * cols : Nat) : ℚ) * harmonic 0 = 0 ∧
    (∀ k : Nat, ((rows * cols : Nat) : ℚ) * harmonic (k + 1)
      = ((rows * cols : Nat) : ℚ) / ((k : ℚ) + 1) + ((rows * cols : Nat) : ℚ) * harmonic k) ∧
    round ((32 : ℚ) * harmonic 32) = 130 ∧
    round ((80 : ℚ) * harmonic 80) = 397 := by
  refine ⟨?_, ?_, ?_, by simp, ?_, ?_, ?_⟩
  · have h := tendsto_meanShots rows cols hpos (freshRound rows cols t) (tied_fresh rows cols t)
    have ha : aliveCount rows cols (freshRound rows cols t).target = rows * cols :=
      aliveCount_place rows cols t
    rw [ha] at h
    simpa [freshRound] using h
  · exact meanShots_mono rows cols hpos _ (tied_fresh rows cols t)
  · have h := tendsto_meanShots rows cols hpos (volley (freshRound rows cols t) l)
      (tied_volley l (tied_fresh rows cols t) hin)
    have := h.sub_const ((volley (freshRound rows cols t) l).shots : ℝ)
    simpa using this
  · intro k
    rw [harmonic_succ]
    push_cast
    ring
  · rw [round_eq, Int.floor_eq_iff]
    constructor <;> norm_num [harmonic, Finset.sum_range_succ]
  · rw [round_eq, Int.floor_eq_iff]
    constructor <;> norm_num [harmonic, Finset.sum_range_succ]

theorem expected_shots_harmonic_witness :
    Filter.Tendsto (fun T => ((meanShots 2 16 T (freshRound 2 16 (fun _ _ => 0)) : ℚ) : ℝ))
      Filter.atTop (nhds (((2 * 16 : Nat) : ℝ) * ((harmonic (2 * 16) : ℚ) : ℝ))) :=
  (expected_shots_harmonic 2 16 (fun _ _ => 0) [(0, 3), (1, 5), (0, 3)] (by decide)
    (by decide)).1

end TinCanAlley
